import Mathlib

/-!
Verification of the qbjs query-builder core (parser, printer, security
validator, Drizzle-PostgreSQL compiler, LRU cache) against its
natural-language specification.

The TypeScript sources are shallowly embedded:

* JavaScript strings are Lean Strings; the JavaScript string operations
  used by the code (trim, split, toLowerCase, join, parseInt, ...) are
  modelled explicitly over character lists so that they compute by rfl.
* JavaScript runtime values (the untyped filter input consumed by the
  parser and the unknown filter values carried in the AST) are modelled
  by the inductive type QVal; a JavaScript object is modelled as its
  ordered key/value list, in property-enumeration order.
* The recursive-descent filter parser is modelled with an explicit fuel
  parameter (structural recursion on fuel) because one of its calls
  recurses on a value of the same size; every other recursive function
  is structurally recursive on the tree.
* Numbers are modelled as Nat (AST pagination, cache clocks and sizes)
  or Int (raw pagination inputs), matching the invariants the data model
  states (offset >= 0, limit > 0); Math.floor on non-negative division
  is Nat division.
-/

/-! ## JavaScript string primitives, modelled over character lists -/

/-- Whitespace as used by String.prototype.trim (the characters that
actually occur in the repository's inputs). -/
def isWsChar (c : Char) : Bool := c = ' ' || c = '\t' || c = '\n' || c = '\r'

/-- Model of String.prototype.trim. -/
def jsTrim (s : String) : String :=
  ((s.toList.dropWhile isWsChar).reverse.dropWhile isWsChar).reverse.asString

/-- Auxiliary splitter: JavaScript String.prototype.split with a
single-character separator, accumulating the current chunk (reversed). -/
def splitCharAux (sep : Char) : List Char → List Char → List String
  | [], acc => [acc.reverse.asString]
  | c :: cs, acc =>
    if c = sep then acc.reverse.asString :: splitCharAux sep cs []
    else splitCharAux sep cs (c :: acc)

/-- Model of String.prototype.split with a one-character separator:
"a,,b".split(",") gives ["a", "", "b"] and "".split(",") gives [""]. -/
def jsSplit (sep : Char) (s : String) : List String := splitCharAux sep s.toList []

/-- Model of Array.prototype.join for an array of strings. -/
def jsJoin (sep : String) : List String → String
  | [] => ""
  | [x] => x
  | x :: xs => x ++ sep ++ jsJoin sep xs

/-- Model of String.prototype.toLowerCase (ASCII, which is all the
source compares: sort directions and operator names). -/
def jsToLower (s : String) : String := (s.toList.map Char.toLower).asString

/-- Longest leading digit run of a character list, as a number; none if
there is no leading digit. -/
def digitsPrefix (cs : List Char) : Option Nat :=
  let ds := cs.takeWhile Char.isDigit
  if ds.isEmpty then none
  else some (ds.foldl (fun a c => a * 10 + (c.toNat - '0'.toNat)) 0)

/-- Model of Number.parseInt(s, 10): skip leading whitespace, optional
sign, longest digit prefix; none models NaN. -/
def parseIntM (s : String) : Option Int :=
  match (s.toList.dropWhile isWsChar) with
  | '-' :: rest => (digitsPrefix rest).map (fun n => -(n : Int))
  | '+' :: rest => (digitsPrefix rest).map (fun n => (n : Int))
  | cs => (digitsPrefix cs).map (fun n => (n : Int))

/-! ## AST model (src/packages/core/src/ast/types.ts) -/

/-- Filter operators supported by the query system (closed enumeration).
The constructor inOp stands for the source operator "in" (a Lean
keyword) and isNull for "null". -/
inductive FilterOperator where
  | eq | eqi | ne | nei | lt | lte | gt | gte
  | inOp | notIn
  | contains | containsi | notContains | notContainsi
  | startsWith | endsWith
  | isNull | notNull
  | between
deriving DecidableEq, Repr

/-- Source spelling of each filter operator. -/
def FilterOperator.name : FilterOperator → String
  | .eq => "eq" | .eqi => "eqi" | .ne => "ne" | .nei => "nei"
  | .lt => "lt" | .lte => "lte" | .gt => "gt" | .gte => "gte"
  | .inOp => "in" | .notIn => "notIn"
  | .contains => "contains" | .containsi => "containsi"
  | .notContains => "notContains" | .notContainsi => "notContainsi"
  | .startsWith => "startsWith" | .endsWith => "endsWith"
  | .isNull => "null" | .notNull => "notNull"
  | .between => "between"

/-- FILTER_OPERATORS: all supported filter operators, in source order. -/
def FILTER_OPERATORS : List FilterOperator :=
  [.eq, .eqi, .ne, .nei, .lt, .lte, .gt, .gte, .inOp, .notIn,
   .contains, .containsi, .notContains, .notContainsi,
   .startsWith, .endsWith, .isNull, .notNull, .between]

/-- Inverse of FilterOperator.name; isSome models isValidFilterOperator. -/
def filterOperatorOfString (s : String) : Option FilterOperator :=
  FILTER_OPERATORS.find? (fun op => op.name == s)

/-- Sort direction. -/
inductive SortDirection where
  | asc | desc
deriving DecidableEq, Repr

/-- Source spelling of a sort direction. -/
def SortDirection.name : SortDirection → String
  | .asc => "asc"
  | .desc => "desc"

/-- Inverse of SortDirection.name; isSome models SORT_DIRECTIONS.includes. -/
def sortDirectionOfString (s : String) : Option SortDirection :=
  if s == "asc" then some .asc else if s == "desc" then some .desc else none

/-- Logical operators for combining filter conditions. -/
inductive LogicalOperator where
  | and | or | not
deriving DecidableEq, Repr

/-- Source spelling of a logical operator. -/
def LogicalOperator.name : LogicalOperator → String
  | .and => "and"
  | .or => "or"
  | .not => "not"

/-- Inverse of LogicalOperator.name; isSome models isValidLogicalOperator. -/
def logicalOperatorOfString (s : String) : Option LogicalOperator :=
  if s == "and" then some .and
  else if s == "or" then some .or
  else if s == "not" then some .not
  else none

/-- Untyped JavaScript values, as far as the query pipeline inspects
them: null, booleans, numbers, strings, arrays and plain objects.  An
object is its key/value list in property-enumeration order. -/
inductive QVal where
  | vnull
  | vbool (b : Bool)
  | vint (n : Int)
  | vstr (s : String)
  | varr (xs : List QVal)
  | vobj (kvs : List (String × QVal))

/-- Specification for sorting a single field. -/
structure SortSpec where
  field : String
  direction : SortDirection
deriving DecidableEq, Repr

/-- A filter node: a field condition or a logical combination
(type discriminators "field" / "logical" become the constructors). -/
inductive FilterNode where
  | field (field : String) (operator : FilterOperator) (value : QVal)
  | logical (operator : LogicalOperator) (conditions : List FilterNode)

/-- Offset-based pagination. -/
structure Pagination where
  offset : Nat
  limit : Nat
deriving DecidableEq, Repr

/-- The main AST structure: fields (none means all fields), pagination,
sort specifications, and an optional filter tree. -/
structure QueryAST where
  fields : Option (List String)
  pagination : Pagination
  sort : List SortSpec
  filter : Option FilterNode

/-- Data-model invariant of a filter tree (spec section 3): a field
filter has a non-empty field name (its operator and value are present
by typing); a logical filter has a non-empty condition list whose
elements are recursively valid. -/
def validFilterNode : FilterNode → Bool
  | .field f _ _ => f.length != 0
  | .logical _ cs => !cs.isEmpty && go cs
where go : List FilterNode → Bool
  | [] => true
  | c :: rest => validFilterNode c && go rest

/-- Data-model invariant of a whole AST (spec section 3): field entries
non-empty, limit positive (offset is a Nat, hence non-negative), sort
fields non-empty, filter tree valid. -/
def validQueryAST (ast : QueryAST) : Bool :=
  (match ast.fields with
   | none => true
   | some fs => fs.all (fun f => f.length != 0)) &&
  decide (0 < ast.pagination.limit) &&
  ast.sort.all (fun s => s.field.length != 0) &&
  (match ast.filter with
   | none => true
   | some node => validFilterNode node)

/-! ## Parser (src/packages/core/src/ast/parser.ts) -/

/-- Parse error codes. -/
inductive ParseErrorCode where
  | INVALID_FIELD | INVALID_OPERATOR | INVALID_VALUE | EXCEEDED_LIMIT | SECURITY_VIOLATION
deriving DecidableEq, Repr

/-- Parse error returned when parsing fails. -/
structure ParseError where
  code : ParseErrorCode
  field : String
  message : String
  path : List String
deriving DecidableEq, Repr

/-- Parse warning codes. -/
inductive ParseWarningCode where
  | FIELD_IGNORED | LIMIT_CAPPED | DEFAULT_APPLIED
deriving DecidableEq, Repr

/-- Parse warning returned for non-fatal issues. -/
structure ParseWarning where
  code : ParseWarningCode
  field : String
  message : String
  suggestion : Option String
deriving DecidableEq, Repr

/-- DEFAULT_PAGINATION from the parser module. -/
def DEFAULT_PAGINATION : Pagination := { offset := 0, limit := 10 }

/-- DEFAULT_PAGE from the parser module. -/
def DEFAULT_PAGE : Nat := 1

/-- Model of parseFields: comma-separated string to trimmed,
empty-entry-filtered list; empty (or falsy) input gives none. -/
def parseFields : Option String → Option (List String)
  | none => none
  | some s =>
    if s == "" then none
    else
      let trimmed := jsTrim s
      if trimmed == "" then none
      else
        let fields := ((jsSplit ',' trimmed).map jsTrim).filter (fun f => decide (0 < f.length))
        if 0 < fields.length then some fields else none

/-- A raw page/limit query parameter: absent (undefined), null, a
number, or a string. -/
inductive ParamInput where
  | undef
  | nullv
  | num (n : Int)
  | str (s : String)
deriving DecidableEq, Repr

/-- Model of parsePagination: limit and page each fall back to their
default on absence, on a non-numeric string (parseInt gives NaN) or on
a non-positive value; offset = (page - 1) * limit. -/
def parsePagination (pageParam limitParam : ParamInput) : Pagination :=
  let lim : Nat :=
    match limitParam with
    | .undef => DEFAULT_PAGINATION.limit
    | .nullv => DEFAULT_PAGINATION.limit
    | .num n => if 0 < n then n.toNat else DEFAULT_PAGINATION.limit
    | .str s =>
      match parseIntM s with
      | some n => if 0 < n then n.toNat else DEFAULT_PAGINATION.limit
      | none => DEFAULT_PAGINATION.limit
  let page : Nat :=
    match pageParam with
    | .undef => DEFAULT_PAGE
    | .nullv => DEFAULT_PAGE
    | .num n => if 0 < n then n.toNat else DEFAULT_PAGE
    | .str s =>
      match parseIntM s with
      | some n => if 0 < n then n.toNat else DEFAULT_PAGE
      | none => DEFAULT_PAGE
  { offset := (page - 1) * lim, limit := lim }

/-- Split a sort token at its last colon (String.prototype.lastIndexOf
plus two substrings); none when the token has no colon. -/
def splitLastColon (s : String) : Option (String × String) :=
  match (jsSplit ':' s).reverse with
  | [] => none
  | [_] => none
  | last :: revInit => some (jsJoin ":" revInit.reverse, last)

/-- Parse one comma-separated sort token into an optional SortSpec:
trim, split at the last colon, default direction asc (also for an
unrecognized direction), drop empty fields. -/
def parseSortToken (part : String) : Option SortSpec :=
  let trimmedPart := jsTrim part
  if trimmedPart == "" then none
  else
    match splitLastColon trimmedPart with
    | none =>
      if 0 < trimmedPart.length then some { field := trimmedPart, direction := .asc } else none
    | some (before, after) =>
      let field := jsTrim before
      let directionStr := jsToLower (jsTrim after)
      let direction :=
        match sortDirectionOfString directionStr with
        | some d => d
        | none => SortDirection.asc
      if 0 < field.length then some { field := field, direction := direction } else none

/-- Model of parseSort. -/
def parseSort : Option String → List SortSpec
  | none => []
  | some s =>
    if s == "" then []
    else
      let trimmed := jsTrim s
      if trimmed == "" then []
      else (jsSplit ',' trimmed).filterMap parseSortToken

/-- Error pushed when the top-level filter is not an object. -/
def filterMustBeObjectError (path : List String) : ParseError :=
  { code := .INVALID_VALUE, field := jsJoin "." path,
    message := "Filter must be an object", path := path }

/-- Error pushed when a logical operator has no usable conditions. -/
def logicalRequiresConditionsError (operator : LogicalOperator) (path : List String) : ParseError :=
  { code := .INVALID_VALUE, field := jsJoin "." path,
    message := "Logical operator \"" ++ operator.name ++ "\" requires an array or object of conditions",
    path := path }

/-- Error pushed for an unrecognized filter operator key. -/
def invalidOperatorError (op : String) (path : List String) : ParseError :=
  { code := .INVALID_OPERATOR, field := jsJoin "." path,
    message := "Invalid filter operator: \"" ++ op ++ "\"", path := path ++ [op] }

/-- Collect the non-null nodes and concatenate the error lists of a run
of recursive parses, preserving order (the push loops of the source). -/
def collectConds : List (Option FilterNode × List ParseError) → List FilterNode × List ParseError
  | [] => ([], [])
  | (c, errs) :: rest =>
    let tail := collectConds rest
    (match c with
     | some node => node :: tail.1
     | none => tail.1,
     errs ++ tail.2)

/-- Model of parseFieldFilterFromObject: a field key maps to an object
of operator/value pairs; a bare (non-object or array) value is an eq
shorthand; multiple operators combine into an implicit AND; an
unrecognized operator records INVALID_OPERATOR (except a falsy,
i.e. empty, single operator key, which is silently dropped). -/
def parseFieldFilterFromObject (fieldName : String) (value : QVal) (path : List String) :
    Option FilterNode × List ParseError :=
  match value with
  | .vnull => (none, [])
  | .vobj kvs =>
    match kvs with
    | [] => (none, [])
    | [(op, v)] =>
      match filterOperatorOfString op with
      | some operator => (some (.field fieldName operator v), [])
      | none => if op == "" then (none, []) else (none, [invalidOperatorError op path])
    | _ =>
      let results := kvs.map (fun kv =>
        match filterOperatorOfString kv.1 with
        | some operator => ((some (FilterNode.field fieldName operator kv.2) : Option FilterNode),
                            ([] : List ParseError))
        | none => (none, [invalidOperatorError kv.1 path]))
      let collected := collectConds results
      match collected.1 with
      | [] => (none, collected.2)
      | [c] => (some c, collected.2)
      | _ => (some (.logical .and collected.1), collected.2)
  | _ => (some (.field fieldName .eq value), [])

/-- Keys of a JavaScript array viewed as an object: "0", "1", ... -/
def jsArrayKeyed (xs : List QVal) : List (String × QVal) :=
  xs.enum.map (fun p => (toString p.1, p.2))

/-- Test for /^\d+$/: a non-empty all-digit key. -/
def isNumericKey (s : String) : Bool :=
  decide (0 < s.length) && s.toList.all Char.isDigit

/-- Numeric value of an array-like key (parseInt of an all-digit key). -/
def keyNum (kv : String × QVal) : Nat := (digitsPrefix kv.1.toList).getD 0

/-- Stable insertion of a key/value pair into a list sorted by keyNum. -/
def insertByKeyNum (kv : String × QVal) : List (String × QVal) → List (String × QVal)
  | [] => [kv]
  | hd :: tl => if keyNum hd ≤ keyNum kv then hd :: insertByKeyNum kv tl else kv :: hd :: tl

/-- Stable sort of array-like keys in ascending numeric order (the
keys.sort comparator of the source). -/
def sortByKeyNum : List (String × QVal) → List (String × QVal)
  | [] => []
  | kv :: rest => insertByKeyNum kv (sortByKeyNum rest)

mutual

/-- Fuelled model of parseFilter.  The parser recurses with an explicit
fuel (the single-nested-object branch of parseLogicalFilter re-parses a
value of the same size, so recursion is structural on the fuel); the
wrapper parseFilter supplies ample fuel. -/
def parseFilterF : Nat → QVal → List String → Option FilterNode × List ParseError
  | 0, _, _ => (none, [])
  | Nat.succ fuel, filterObj, path =>
    match filterObj with
    | .vnull => (none, [])
    | .vbool _ => (none, [filterMustBeObjectError path])
    | .vint _ => (none, [filterMustBeObjectError path])
    | .vstr _ => (none, [filterMustBeObjectError path])
    | .varr xs => parseKeyedF fuel (jsArrayKeyed xs) path
    | .vobj kvs => parseKeyedF fuel kvs path

/-- Body of parseFilter over the key/value list of the filter object
(Object.keys enumeration): a single logical key recurses into
parseLogicalFilter, several keys are an implicit AND, a single falsy
(empty) field key yields null, a single field key parses a field
filter. -/
def parseKeyedF : Nat → List (String × QVal) → List String → Option FilterNode × List ParseError
  | 0, _, _ => (none, [])
  | Nat.succ fuel, kvs, path =>
    match kvs with
    | [] => (none, [])
    | [(firstKey, v)] =>
      (match logicalOperatorOfString firstKey with
       | some lop => parseLogicalFilterF fuel lop v (path ++ [firstKey])
       | none =>
         if firstKey == "" then (none, [])
         else parseFieldFilterFromObject firstKey v (path ++ [firstKey]))
    | _ =>
      let results := kvs.map (fun kv =>
        match logicalOperatorOfString kv.1 with
        | some lop => parseLogicalFilterF fuel lop kv.2 (path ++ [kv.1])
        | none => parseFieldFilterFromObject kv.1 kv.2 (path ++ [kv.1]))
      let collected := collectConds results
      match collected.1 with
      | [] => (none, collected.2)
      | [c] => (some c, collected.2)
      | _ => (some (.logical .and collected.1), collected.2)

/-- Fuelled model of parseLogicalFilter: the operator value may be an
array of conditions, a numeric-keyed array-like object (sorted by key),
or a single nested filter object (wrapped as a one-element condition
list); anything else records INVALID_VALUE. -/
def parseLogicalFilterF : Nat → LogicalOperator → QVal → List String →
    Option FilterNode × List ParseError
  | 0, _, _, _ => (none, [])
  | Nat.succ fuel, operator, value, path =>
    match value with
    | .vnull => (none, [])
    | .varr xs =>
      let results := (jsArrayKeyed xs).map (fun kv => parseFilterF fuel kv.2 (path ++ [kv.1]))
      let collected := collectConds results
      (match collected.1 with
       | [] => (none, collected.2)
       | _ => (some (.logical operator collected.1), collected.2))
    | .vobj kvs =>
      let keys := kvs.map (fun kv => kv.1)
      if keys.all isNumericKey && decide (0 < keys.length) then
        let sortedKvs := sortByKeyNum kvs
        let results := sortedKvs.map (fun kv => parseFilterF fuel kv.2 (path ++ [kv.1]))
        let collected := collectConds results
        match collected.1 with
        | [] => (none, collected.2)
        | _ => (some (.logical operator collected.1), collected.2)
      else
        let parsed := parseFilterF fuel value path
        match parsed.1 with
        | some c => (some (.logical operator [c]), parsed.2)
        | none => (none, parsed.2 ++ [logicalRequiresConditionsError operator path])
    | _ => (none, [logicalRequiresConditionsError operator path])

end

/-- Structural size of an untyped value (used only to supply fuel and
to reason about fuel adequacy). -/
def qvalSize : QVal → Nat
  | .vnull => 1
  | .vbool _ => 1
  | .vint _ => 1
  | .vstr _ => 1
  | .varr xs => 1 + goArr xs
  | .vobj kvs => 1 + goObj kvs
where
  goArr : List QVal → Nat
    | [] => 0
    | x :: rest => 1 + qvalSize x + goArr rest
  goObj : List (String × QVal) → Nat
    | [] => 0
    | kv :: rest => 1 + qvalSize kv.2 + goObj rest

/-- Fuel that is always sufficient for parseFilterF (each recursive call
consumes one unit and descends at least every third call). -/
def qvalFuel (v : QVal) : Nat := 3 * (qvalSize v + 1)

/-- Model of parseFilter at its default path, with ample fuel. -/
def parseFilter (filterObj : QVal) : Option FilterNode × List ParseError :=
  parseFilterF (qvalFuel filterObj) filterObj ["filter"]

/-- Input query parameters that can be parsed (QueryInput). -/
structure QueryInput where
  fields : Option String
  page : ParamInput
  limit : ParamInput
  sort : Option String
  filter : Option QVal

/-- Result of parsing a query input (ParserResult). -/
structure ParserResult where
  ast : Option QueryAST
  errors : List ParseError
  warnings : List ParseWarning

/-- DEFAULT_APPLIED warning pushed when page is absent but limit given. -/
def pageDefaultAppliedWarning : ParseWarning :=
  { code := .DEFAULT_APPLIED, field := "page",
    message := "Page parameter not provided, defaulting to page 1",
    suggestion := some "Provide a page parameter for explicit pagination" }

/-- Model of parse, the parser's main entry point. -/
def parse (input : QueryInput) : ParserResult :=
  let fields := parseFields input.fields
  let pagination := parsePagination input.page input.limit
  let warnings : List ParseWarning :=
    if input.page == ParamInput.undef && input.limit == ParamInput.undef then []
    else if input.page == ParamInput.undef then [pageDefaultAppliedWarning]
    else []
  let sort := parseSort input.sort
  let parsedFilter :=
    match input.filter with
    | none => ((none : Option FilterNode), ([] : List ParseError))
    | some v => parseFilter v
  let errors := parsedFilter.2
  let hasCriticalErrors := errors.any (fun e =>
    e.code == ParseErrorCode.INVALID_VALUE || e.code == ParseErrorCode.SECURITY_VIOLATION ||
    e.code == ParseErrorCode.EXCEEDED_LIMIT)
  if hasCriticalErrors then { ast := none, errors := errors, warnings := warnings }
  else
    { ast := some { fields := fields, pagination := pagination, sort := sort,
                    filter := parsedFilter.1 },
      errors := errors, warnings := warnings }

/-! ## Printer (src/packages/core/src/ast/printer.ts) -/

/-- Model of printFields. -/
def printFields : Option (List String) → Option String
  | none => none
  | some fields => if fields.isEmpty then none else some (jsJoin "," fields)

/-- Model of printPagination: page = floor(offset / limit) + 1 (the
source divides JavaScript numbers; on the valid ASTs the claims range
over, limit is positive and the division is Nat floor division). -/
def printPagination (pagination : Pagination) : Nat × Nat :=
  (pagination.offset / pagination.limit + 1, pagination.limit)

/-- Model of printSort. -/
def printSort (sort : List SortSpec) : Option String :=
  if sort.isEmpty then none
  else some (jsJoin "," (sort.map (fun s => s.field ++ ":" ++ s.direction.name)))

/-- Model of printFilter: a field filter prints as the one-key object
field/(operator/value); a logical filter prints its survivable children
as an array under the operator key, collapsing to undefined when no
child survives. -/
def printFilter : FilterNode → Option QVal
  | .field f operator v => some (.vobj [(f, .vobj [(operator.name, v)])])
  | .logical operator cs =>
    let conditions := go cs
    if conditions.isEmpty then none
    else some (.vobj [(operator.name, .varr conditions)])
where go : List FilterNode → List QVal
  | [] => []
  | c :: rest =>
    match printFilter c with
    | some q => q :: go rest
    | none => go rest

/-- Printed query parameters (PrintedQuery); print always sets page and
limit, so they are plain numbers here. -/
structure PrintedQuery where
  fields : Option String
  page : Nat
  limit : Nat
  sort : Option String
  filter : Option QVal

/-- Model of print, the printer's main entry point. -/
def print (ast : QueryAST) : PrintedQuery :=
  let pl := printPagination ast.pagination
  { fields := printFields ast.fields
    page := pl.1
    limit := pl.2
    sort := printSort ast.sort
    filter :=
      match ast.filter with
      | none => none
      | some node => printFilter node }

/-- Feed a printed query back to the parser (the round-trip composition
parse(print(ast)) of the round-trip property). -/
def printedToInput (q : PrintedQuery) : QueryInput :=
  { fields := q.fields, page := .num (q.page : Int), limit := .num (q.limit : Int),
    sort := q.sort, filter := q.filter }

/-- Round trip: parse(print(ast)). -/
def reparse (ast : QueryAST) : ParserResult := parse (printedToInput (print ast))


/-! ## Security validation (src/packages/core/src/security/types.ts and validator.ts) -/

/-- Security validation error codes. -/
inductive SecurityErrorCode where
  | FIELD_NOT_ALLOWED | OPERATOR_NOT_ALLOWED | LIMIT_EXCEEDED
deriving DecidableEq, Repr

/-- Security validation error. -/
structure SecurityError where
  code : SecurityErrorCode
  field : String
  message : String
  path : List String
deriving DecidableEq, Repr

/-- Security warning codes (the only one the validator emits). -/
inductive SecurityWarningCode where
  | LIMIT_CAPPED
deriving DecidableEq, Repr

/-- Security validation warning. -/
structure SecurityWarning where
  code : SecurityWarningCode
  field : String
  message : String
  originalValue : Nat
  cappedValue : Nat
deriving DecidableEq, Repr

/-- User-facing security configuration (all fields optional). -/
structure SecurityConfig where
  allowedFields : Option (List String)
  allowedRelations : Option (List String)
  maxLimit : Option Nat
  operators : Option (List FilterOperator)
  defaultLimit : Option Nat
  defaultPage : Option Nat
deriving Repr

/-- Fully resolved security configuration. -/
structure ResolvedSecurityConfig where
  allowedFields : List String
  allowedRelations : List String
  maxLimit : Nat
  operators : List FilterOperator
  defaultLimit : Nat
  defaultPage : Nat
deriving Repr

/-- DEFAULT_SECURITY_CONFIG: empty allowlists (all allowed), max limit
100, all operators, default limit 10, default page 1. -/
def DEFAULT_SECURITY_CONFIG : ResolvedSecurityConfig :=
  { allowedFields := []
    allowedRelations := []
    maxLimit := 100
    operators := FILTER_OPERATORS
    defaultLimit := 10
    defaultPage := 1 }

/-- Model of resolveSecurityConfig. -/
def resolveSecurityConfig : Option SecurityConfig → ResolvedSecurityConfig
  | none => DEFAULT_SECURITY_CONFIG
  | some config =>
    { allowedFields := config.allowedFields.getD DEFAULT_SECURITY_CONFIG.allowedFields
      allowedRelations := config.allowedRelations.getD DEFAULT_SECURITY_CONFIG.allowedRelations
      maxLimit := config.maxLimit.getD DEFAULT_SECURITY_CONFIG.maxLimit
      operators := config.operators.getD DEFAULT_SECURITY_CONFIG.operators
      defaultLimit := config.defaultLimit.getD DEFAULT_SECURITY_CONFIG.defaultLimit
      defaultPage := config.defaultPage.getD DEFAULT_SECURITY_CONFIG.defaultPage }

/-- FIELD_NOT_ALLOWED error for a selected field. -/
def fieldNotAllowedError (f : String) (allowedFields : List String) : SecurityError :=
  { code := .FIELD_NOT_ALLOWED, field := f,
    message := "Field \"" ++ f ++ "\" is not allowed. Allowed fields: " ++ jsJoin ", " allowedFields,
    path := ["fields", f] }

/-- Model of validateFields: one error per entry of the selected-fields
array that is outside a non-empty allowlist. -/
def validateFields (fields : Option (List String)) (allowedFields : List String) :
    List SecurityError :=
  match fields with
  | none => []
  | some fs =>
    if fs.isEmpty || allowedFields.isEmpty then []
    else fs.filterMap (fun f =>
      if allowedFields.contains f then none
      else some (fieldNotAllowedError f allowedFields))

/-- Model of validateLimit: cap at maxLimit with a LIMIT_CAPPED warning
recording original and capped value. -/
def validateLimit (limit maxLimit : Nat) : Nat × Option SecurityWarning :=
  if limit ≤ maxLimit then (limit, none)
  else
    (maxLimit,
     some { code := .LIMIT_CAPPED, field := "limit",
            message := "Limit " ++ toString limit ++ " exceeds maximum allowed limit of " ++
              toString maxLimit ++ ". Capped to " ++ toString maxLimit ++ ".",
            originalValue := limit, cappedValue := maxLimit })

/-- OPERATOR_NOT_ALLOWED error for a field filter. -/
def operatorNotAllowedError (f : String) (operator : FilterOperator)
    (allowedOperators : List FilterOperator) (path : List String) : SecurityError :=
  { code := .OPERATOR_NOT_ALLOWED, field := f,
    message := "Operator \"" ++ operator.name ++ "\" is not allowed. Allowed operators: " ++
      jsJoin ", " (allowedOperators.map FilterOperator.name),
    path := path ++ [f, operator.name] }

mutual

/-- Model of validateOperators on a present filter node: recursively
collect OPERATOR_NOT_ALLOWED errors for operators outside the allowlist. -/
def validateOperatorsNode (filter : FilterNode) (allowedOperators : List FilterOperator)
    (path : List String) : List SecurityError :=
  match filter with
  | .field f operator _ =>
    if allowedOperators.contains operator then []
    else [operatorNotAllowedError f operator allowedOperators path]
  | .logical lop cs => validateOperatorsGo allowedOperators path lop cs 0

/-- Indexed loop over the conditions of a logical filter (the recursion
of validateOperators, with the operator name and index on the path). -/
def validateOperatorsGo (allowedOperators : List FilterOperator) (path : List String)
    (lop : LogicalOperator) : List FilterNode → Nat → List SecurityError
  | [], _ => []
  | c :: rest, i =>
    validateOperatorsNode c allowedOperators (path ++ [lop.name, toString i]) ++
      validateOperatorsGo allowedOperators path lop rest (i + 1)

end

/-- Model of validateOperators (optional filter, default path). -/
def validateOperators (filter : Option FilterNode) (allowedOperators : List FilterOperator) :
    List SecurityError :=
  match filter with
  | none => []
  | some node => validateOperatorsNode node allowedOperators ["filter"]

/-- Depth-first list of the field names referenced in a filter tree
(the traversal order of extractFilterFields before Set deduplication). -/
def collectFilterFields : FilterNode → List String
  | .field f _ _ => [f]
  | .logical _ cs => go cs
where go : List FilterNode → List String
  | [] => []
  | c :: rest => collectFilterFields c ++ go rest

/-- First-occurrence deduplication with an explicit seen accumulator
(JavaScript Set insertion followed by Array.from). -/
def dedupFirstAux : List String → List String → List String
  | [], _ => []
  | x :: xs, seen =>
    if seen.contains x then dedupFirstAux xs seen
    else x :: dedupFirstAux xs (x :: seen)

/-- First-occurrence deduplication of a string list. -/
def dedupFirst (l : List String) : List String := dedupFirstAux l []

/-- Model of extractFilterFields: the unique field names referenced in
a filter, in first-visit order. -/
def extractFilterFields : Option FilterNode → List String
  | none => []
  | some node => dedupFirst (collectFilterFields node)

/-- FIELD_NOT_ALLOWED error for a filter field. -/
def filterFieldNotAllowedError (f : String) (allowedFields : List String) (path : List String) :
    SecurityError :=
  { code := .FIELD_NOT_ALLOWED, field := f,
    message := "Filter field \"" ++ f ++ "\" is not allowed. Allowed fields: " ++
      jsJoin ", " allowedFields,
    path := path ++ [f] }

/-- Model of validateFilterFields: one error per extracted (unique)
filter field outside a non-empty allowlist. -/
def validateFilterFields (filter : Option FilterNode) (allowedFields : List String)
    (path : List String) : List SecurityError :=
  if allowedFields.isEmpty || filter.isNone then []
  else (extractFilterFields filter).filterMap (fun f =>
    if allowedFields.contains f then none
    else some (filterFieldNotAllowedError f allowedFields path))

/-- FIELD_NOT_ALLOWED error for a sort field. -/
def sortFieldNotAllowedError (f : String) (allowedFields : List String) : SecurityError :=
  { code := .FIELD_NOT_ALLOWED, field := f,
    message := "Sort field \"" ++ f ++ "\" is not allowed. Allowed fields: " ++
      jsJoin ", " allowedFields,
    path := ["sort", f] }

/-- Model of validateSortFields: one error per sort specification whose
field is outside a non-empty allowlist. -/
def validateSortFields (sort : List SortSpec) (allowedFields : List String) :
    List SecurityError :=
  if allowedFields.isEmpty || sort.isEmpty then []
  else sort.filterMap (fun spec =>
    if allowedFields.contains spec.field then none
    else some (sortFieldNotAllowedError spec.field allowedFields))

/-- Result of security validation. -/
structure SecurityValidationResult where
  valid : Bool
  errors : List SecurityError
  warnings : List SecurityWarning
  ast : Option QueryAST

/-- Model of validateSecurity, the validator's main entry point. -/
def validateSecurity (ast : Option QueryAST) (config : Option SecurityConfig) :
    SecurityValidationResult :=
  match ast with
  | none => { valid := true, errors := [], warnings := [], ast := none }
  | some ast =>
    let resolvedConfig := resolveSecurityConfig config
    let errors :=
      validateFields ast.fields resolvedConfig.allowedFields ++
      validateFilterFields ast.filter resolvedConfig.allowedFields ["filter"] ++
      validateSortFields ast.sort resolvedConfig.allowedFields ++
      validateOperators ast.filter resolvedConfig.operators
    let capped := validateLimit ast.pagination.limit resolvedConfig.maxLimit
    let warnings :=
      match capped.2 with
      | some w => [w]
      | none => []
    let modifiedAst : QueryAST :=
      { ast with pagination := { ast.pagination with limit := capped.1 } }
    { valid := errors.isEmpty, errors := errors, warnings := warnings, ast := some modifiedAst }


/-! ## Drizzle PostgreSQL compiler (src/unnamed/part_011, compiler/drizzle-pg) -/

/-- Model of JavaScript String(value) coercion, as used to build LIKE
patterns (arrays join with commas, null elements become empty). -/
def jsStringOfQVal : QVal → String
  | .vnull => "null"
  | .vbool b => if b then "true" else "false"
  | .vint n => toString n
  | .vstr s => s
  | .varr xs => go xs
  | .vobj _ => "[object Object]"
where go : List QVal → String
  | [] => ""
  | [x] =>
    (match x with
     | .vnull => ""
     | x => jsStringOfQVal x)
  | x :: xs =>
    (match x with
     | .vnull => ""
     | x => jsStringOfQVal x) ++ "," ++ go xs

/-- Compile error codes. -/
inductive CompileErrorCode where
  | UNKNOWN_COLUMN | TYPE_MISMATCH | UNSUPPORTED_OPERATOR
deriving DecidableEq, Repr

/-- Compile warning codes. -/
inductive CompileWarningCode where
  | COLUMN_IGNORED | OPERATOR_FALLBACK | PERFORMANCE_HINT
deriving DecidableEq, Repr

/-- An error that occurred during compilation. -/
structure CompileError where
  code : CompileErrorCode
  field : String
  message : String
deriving DecidableEq, Repr

/-- A warning that occurred during compilation. -/
structure CompileWarning where
  code : CompileWarningCode
  field : String
  message : String
  suggestion : Option String
deriving DecidableEq, Repr

/-- Symbolic Drizzle predicate tree: one constructor per Drizzle
combinator the compiler invokes (eq, ilike, notIlike, like, notLike,
ne, lt, lte, gt, gte, inArray, notInArray, isNull, isNotNull, between,
and, or, not); a column handle is its resolved column name. -/
inductive Cond where
  | eqC (col : String) (v : QVal)
  | neC (col : String) (v : QVal)
  | ilikeC (col : String) (pattern : String)
  | notIlikeC (col : String) (pattern : String)
  | likeC (col : String) (pattern : String)
  | notLikeC (col : String) (pattern : String)
  | ltC (col : String) (v : QVal)
  | lteC (col : String) (v : QVal)
  | gtC (col : String) (v : QVal)
  | gteC (col : String) (v : QVal)
  | inArrayC (col : String) (vs : List QVal)
  | notInArrayC (col : String) (vs : List QVal)
  | isNullC (col : String)
  | isNotNullC (col : String)
  | betweenC (col : String) (lo hi : QVal)
  | andC (cs : List Cond)
  | orC (cs : List Cond)
  | notC (c : Cond)

/-- Ordering directive: asc(column) or desc(column). -/
inductive OrderBy where
  | ascO (col : String)
  | descO (col : String)
deriving DecidableEq, Repr

/-- A table is modelled by its resolvable column-name list (the keys of
getTableColumns). -/
abbrev TableModel := List String

/-- Compiled Drizzle PostgreSQL query; whereC models the source field
named where (a Lean keyword), columns none models undefined (select
all). -/
structure DrizzlePgQuery where
  columns : Option (List String)
  limit : Nat
  offset : Nat
  orderBy : List OrderBy
  whereC : Option Cond

/-- Result of compiling a QueryAST (CompilerResult; the query is always
present, the source always builds a best-effort query object). -/
structure CompilerResult where
  query : DrizzlePgQuery
  errors : List CompileError
  warnings : List CompileWarning

/-- UNKNOWN_COLUMN error for a selected field. -/
def unknownColumnError (f : String) : CompileError :=
  { code := .UNKNOWN_COLUMN, field := f,
    message := "Column '" ++ f ++ "' does not exist in table schema" }

/-- COLUMN_IGNORED warning emitted when every requested field is invalid. -/
def allFieldsInvalidWarning (table : TableModel) : CompileWarning :=
  { code := .COLUMN_IGNORED, field := "fields",
    message := "All requested fields were invalid, selecting all columns",
    suggestion := some ("Available columns: " ++ jsJoin ", " table) }

/-- Key-insertion into the selection record: result[field] = true keeps
the first position of an already-present key. -/
def insertColumnKey (f : String) (acc : List String) : List String :=
  if acc.contains f then acc else acc ++ [f]

/-- Model of compileFields: null selects all columns (none); unknown
fields record UNKNOWN_COLUMN and are skipped; if a non-empty request
resolves to nothing, fall back to all columns with a COLUMN_IGNORED
warning. -/
def compileFields (fields : Option (List String)) (table : TableModel) :
    Option (List String) × List CompileError × List CompileWarning :=
  match fields with
  | none => (none, [], [])
  | some fs =>
    let result := fs.foldl (fun acc f => if table.contains f then insertColumnKey f acc else acc) []
    let errors := (fs.filter (fun f => !table.contains f)).map unknownColumnError
    if result.isEmpty && !fs.isEmpty then (none, errors, [allFieldsInvalidWarning table])
    else (some result, errors, [])

/-- Model of compilePagination: limit and offset copy directly. -/
def compilePagination (pagination : Pagination) : Nat × Nat :=
  (pagination.limit, pagination.offset)

/-- UNKNOWN_COLUMN error for a sort field. -/
def unknownSortColumnError (f : String) : CompileError :=
  { code := .UNKNOWN_COLUMN, field := f,
    message := "Sort column '" ++ f ++ "' does not exist in table schema" }

/-- Model of compileSort: unresolvable columns record UNKNOWN_COLUMN
and are skipped; the rest compile one-to-one into ordering directives. -/
def compileSort (sort : List SortSpec) (table : TableModel) :
    List OrderBy × List CompileError :=
  match sort with
  | [] => ([], [])
  | spec :: rest =>
    let tail := compileSort rest table
    if table.contains spec.field then
      ((match spec.direction with
        | .desc => OrderBy.descO spec.field
        | .asc => OrderBy.ascO spec.field) :: tail.1, tail.2)
    else (tail.1, unknownSortColumnError spec.field :: tail.2)

/-- TYPE_MISMATCH error for a between operator with wrong arity. -/
def betweenArityError (fieldName : String) (valueKind : String) : CompileError :=
  { code := .TYPE_MISMATCH, field := fieldName,
    message := "Operator 'between' requires array with exactly 2 values, got " ++ valueKind }

/-- JavaScript typeof of a modelled value (only used in the between
arity error message). -/
def jsTypeof : QVal → String
  | .vnull => "object"
  | .vbool _ => "boolean"
  | .vint _ => "number"
  | .vstr _ => "string"
  | .varr _ => "object"
  | .vobj _ => "object"

/-- Model of compileOperator: dispatch one field filter to the
corresponding Drizzle condition; between demands an exactly-two-element
array, anything else records TYPE_MISMATCH and yields no predicate
(the UNSUPPORTED_OPERATOR default is unreachable: the operator
enumeration is closed). -/
def compileOperator (column : String) (operator : FilterOperator) (value : QVal)
    (fieldName : String) : Option Cond × List CompileError :=
  match operator with
  | .eq => (some (.eqC column value), [])
  | .eqi => (some (.ilikeC column (jsStringOfQVal value)), [])
  | .ne => (some (.neC column value), [])
  | .nei => (some (.notIlikeC column (jsStringOfQVal value)), [])
  | .lt => (some (.ltC column value), [])
  | .lte => (some (.lteC column value), [])
  | .gt => (some (.gtC column value), [])
  | .gte => (some (.gteC column value), [])
  | .inOp =>
    (some (.inArrayC column (match value with | .varr vs => vs | v => [v])), [])
  | .notIn =>
    (some (.notInArrayC column (match value with | .varr vs => vs | v => [v])), [])
  | .contains => (some (.likeC column ("%" ++ jsStringOfQVal value ++ "%")), [])
  | .containsi => (some (.ilikeC column ("%" ++ jsStringOfQVal value ++ "%")), [])
  | .notContains => (some (.notLikeC column ("%" ++ jsStringOfQVal value ++ "%")), [])
  | .notContainsi => (some (.notIlikeC column ("%" ++ jsStringOfQVal value ++ "%")), [])
  | .startsWith => (some (.likeC column (jsStringOfQVal value ++ "%")), [])
  | .endsWith => (some (.likeC column ("%" ++ jsStringOfQVal value)), [])
  | .isNull => (some (.isNullC column), [])
  | .notNull => (some (.isNotNullC column), [])
  | .between =>
    match value with
    | .varr [lo, hi] => (some (.betweenC column lo hi), [])
    | v => (none, [betweenArityError fieldName (jsTypeof v)])

/-- UNKNOWN_COLUMN error for a filter field. -/
def unknownFilterColumnError (f : String) : CompileError :=
  { code := .UNKNOWN_COLUMN, field := f,
    message := "Filter column '" ++ f ++ "' does not exist in table schema" }

mutual

/-- Model of the inner compileNode of compileFilter: a field filter
resolves its column (recording UNKNOWN_COLUMN and yielding null when it
cannot) and dispatches its operator; a logical node compiles its
children, a single surviving child short-circuits (no unary wrapper),
and not negates only the first surviving child. -/
def compileNode (table : TableModel) : FilterNode → Option Cond × List CompileError
  | .field f operator v =>
    if table.contains f then compileOperator f operator v f
    else (none, [unknownFilterColumnError f])
  | .logical lop cs =>
    let compiled := compileNodeList table cs
    match compiled.1 with
    | [] => (none, compiled.2)
    | [c] =>
      (match lop with
       | .and => (some c, compiled.2)
       | .or => (some c, compiled.2)
       | .not => (some (.notC c), compiled.2))
    | c :: _ =>
      (match lop with
       | .and => (some (.andC compiled.1), compiled.2)
       | .or => (some (.orC compiled.1), compiled.2)
       | .not => (some (.notC c), compiled.2))

/-- Children compilation: map compileNode over the conditions, keep the
non-null results (in order) and every error. -/
def compileNodeList (table : TableModel) : List FilterNode → List Cond × List CompileError
  | [] => ([], [])
  | c :: rest =>
    let hd := compileNode table c
    let tl := compileNodeList table rest
    (match hd.1 with
     | some cond => cond :: tl.1
     | none => tl.1,
     hd.2 ++ tl.2)

end

/-- Model of compileFilter (optional filter). -/
def compileFilter (filter : Option FilterNode) (table : TableModel) :
    Option Cond × List CompileError :=
  match filter with
  | none => (none, [])
  | some node => compileNode table node

/-- Model of DrizzlePgCompiler.compile: always returns a best-effort
query object together with the accumulated errors and warnings. -/
def compile (ast : QueryAST) (table : TableModel) : CompilerResult :=
  let fieldsPart := compileFields ast.fields table
  let pagination := compilePagination ast.pagination
  let sortPart := compileSort ast.sort table
  let wherePart := compileFilter ast.filter table
  { query :=
      { columns := fieldsPart.1
        limit := pagination.1
        offset := pagination.2
        orderBy := sortPart.1
        whereC := wherePart.1 }
    errors := fieldsPart.2.1 ++ sortPart.2 ++ wherePart.2
    warnings := fieldsPart.2.2 }


/-! ## LRU cache (src/unnamed/part_010) -/

/-- Reasons for cache entry eviction. -/
inductive EvictionReason where
  | expired | capacity | manual | clear
deriving DecidableEq, Repr

/-- Cache entry with metadata. -/
structure CacheEntry (V : Type) where
  value : V
  createdAt : Nat
  lastAccessedAt : Nat
  accessCount : Nat
  size : Nat
deriving DecidableEq, Repr

/-- Cache configuration (maxSize and ttl; the auto-cleanup timer and
the onEvict callback are real-time / effectful and are outside the
embedding, see the concurrency section of the spec). -/
structure CacheConfig where
  maxSize : Nat
  ttl : Nat
deriving DecidableEq, Repr

/-- DEFAULT_CACHE_CONFIG (maxSize 1000, ttl 300000). -/
def DEFAULT_CACHE_CONFIG : CacheConfig := { maxSize := 1000, ttl := 300000 }

/-- Cache state: the backing Map as its insertion-ordered binding list
(first binding = least recently used), plus the statistics counters.
Date.now() is passed explicitly to each operation. -/
structure CacheState (V : Type) where
  entries : List (String × CacheEntry V)
  hits : Nat
  misses : Nat
  evictions : Nat
  evExpired : Nat
  evCapacity : Nat
  evManual : Nat
  evClear : Nat
deriving DecidableEq, Repr

/-- The empty cache. -/
def emptyCache (V : Type) : CacheState V :=
  { entries := [], hits := 0, misses := 0, evictions := 0,
    evExpired := 0, evCapacity := 0, evManual := 0, evClear := 0 }

/-- Map.get on the binding list. -/
def mapGet {V : Type} (key : String) (entries : List (String × CacheEntry V)) :
    Option (CacheEntry V) :=
  (entries.find? (fun kv => kv.1 == key)).map (fun kv => kv.2)

/-- Map.delete on the binding list. -/
def mapRemove {V : Type} (key : String) (entries : List (String × CacheEntry V)) :
    List (String × CacheEntry V) :=
  entries.filter (fun kv => kv.1 != key)

/-- Has the entry expired: Date.now() - createdAt > ttl (strict). -/
def isExpired {V : Type} (cfg : CacheConfig) (now : Nat) (entry : CacheEntry V) : Bool :=
  decide (cfg.ttl < now - entry.createdAt)

/-- Bump the counter for one eviction reason. -/
def bumpReason {V : Type} (reason : EvictionReason) (st : CacheState V) : CacheState V :=
  match reason with
  | .expired => { st with evExpired := st.evExpired + 1 }
  | .capacity => { st with evCapacity := st.evCapacity + 1 }
  | .manual => { st with evManual := st.evManual + 1 }
  | .clear => { st with evClear := st.evClear + 1 }

/-- Model of the private evict(key, reason): remove the binding and
count the eviction (a no-op when the key is absent). -/
def evict {V : Type} (key : String) (reason : EvictionReason) (st : CacheState V) :
    CacheState V :=
  match mapGet key st.entries with
  | none => st
  | some _ =>
    bumpReason reason
      { st with entries := mapRemove key st.entries, evictions := st.evictions + 1 }

/-- Model of evictLRU: the first Map key is the least recently used. -/
def evictLRU {V : Type} (st : CacheState V) : CacheState V :=
  match st.entries with
  | [] => st
  | (k, _) :: _ => evict k .capacity st

/-- The while (size >= maxSize) evictLRU loop of set, fuelled by the
entry count (the source loop would not terminate for maxSize = 0 on an
empty map; the fuel stops it after the map is exhausted). -/
def evictLoop {V : Type} (maxSize : Nat) : Nat → CacheState V → CacheState V
  | 0, st => st
  | Nat.succ fuel, st =>
    if maxSize ≤ st.entries.length then
      match st.entries with
      | [] => st
      | _ => evictLoop maxSize fuel (evictLRU st)
    else st

/-- Model of get: miss on absence; expired entries are evicted (reason
expired) and count as a miss; a hit updates access metadata and
re-inserts the binding at the end of the Map (most recently used). -/
def cacheGet {V : Type} (cfg : CacheConfig) (now : Nat) (key : String) (st : CacheState V) :
    Option V × CacheState V :=
  match mapGet key st.entries with
  | none => (none, { st with misses := st.misses + 1 })
  | some entry =>
    if isExpired cfg now entry then
      let st := evict key .expired st
      (none, { st with misses := st.misses + 1 })
    else
      let entry := { entry with lastAccessedAt := now, accessCount := entry.accessCount + 1 }
      (some entry.value,
       { st with entries := mapRemove key st.entries ++ [(key, entry)],
                 hits := st.hits + 1 })

/-- Model of set: an existing key is deleted first (update), then least
recently used entries are evicted while the map is at or above
capacity, then the fresh entry is appended (most recently used). -/
def cacheSet {V : Type} (cfg : CacheConfig) (estimateSize : V → Nat) (now : Nat)
    (key : String) (value : V) (st : CacheState V) : CacheState V :=
  let st :=
    if (mapGet key st.entries).isSome then { st with entries := mapRemove key st.entries }
    else st
  let st := evictLoop cfg.maxSize (st.entries.length + 1) st
  let entry : CacheEntry V :=
    { value := value, createdAt := now, lastAccessedAt := now, accessCount := 1,
      size := estimateSize value }
  { st with entries := st.entries ++ [(key, entry)] }


/-! ## Predicates and measures used by the claim statements -/

/-- A page or limit input on which the parser falls back to its
default: absent, null, a non-positive number, or a string that is
non-numeric (parseInt NaN) or parses non-positive. -/
def paramFallsBack : ParamInput → Bool
  | .undef => true
  | .nullv => true
  | .num n => decide (n ≤ 0)
  | .str s =>
    match parseIntM s with
    | none => true
    | some n => decide (n ≤ 0)

/-- Every column name referenced by a compiled predicate is resolvable
in the table. -/
def condColsIn (table : TableModel) : Cond → Bool
  | .eqC col _ => table.contains col
  | .neC col _ => table.contains col
  | .ilikeC col _ => table.contains col
  | .notIlikeC col _ => table.contains col
  | .likeC col _ => table.contains col
  | .notLikeC col _ => table.contains col
  | .ltC col _ => table.contains col
  | .lteC col _ => table.contains col
  | .gtC col _ => table.contains col
  | .gteC col _ => table.contains col
  | .inArrayC col _ => table.contains col
  | .notInArrayC col _ => table.contains col
  | .isNullC col => table.contains col
  | .isNotNullC col => table.contains col
  | .betweenC col _ _ => table.contains col
  | .andC cs => go cs
  | .orC cs => go cs
  | .notC c => condColsIn table c
where go : List Cond → Bool
  | [] => true
  | c :: rest => condColsIn table c && go rest

/-- Every object key occurring anywhere in an untyped value is
non-empty (the well-formedness of filter input that the amended C7
claim assumes). -/
def qvalKeysNonempty : QVal → Bool
  | .vnull => true
  | .vbool _ => true
  | .vint _ => true
  | .vstr _ => true
  | .varr xs => goArr xs
  | .vobj kvs => goObj kvs
where
  goArr : List QVal → Bool
    | [] => true
    | x :: rest => qvalKeysNonempty x && goArr rest
  goObj : List (String × QVal) → Bool
    | [] => true
    | kv :: rest => (kv.1.length != 0) && qvalKeysNonempty kv.2 && goObj rest

/-- Key non-emptiness for an optional filter input. -/
def qvalKeysNonemptyOpt : Option QVal → Bool
  | none => true
  | some v => qvalKeysNonempty v

/-- Data-model invariant for an optional filter tree. -/
def filterInvariantHolds : Option FilterNode → Bool
  | none => true
  | some node => validFilterNode node

/-- A field name that survives the printer/parser string plumbing
untouched: non-empty and free of whitespace and of the comma separator
(the shape of every field name in the repository's own tests). -/
def goodPlainName (s : String) : Bool :=
  decide (0 < s.length) && s.toList.all (fun c => !isWsChar c && !(c == ','))

/-- Round-trip-safe selected-fields component: all fields (none) or a
non-empty list of good names (printing an empty list loses it). -/
def goodFieldList : Option (List String) → Bool
  | none => true
  | some fs => !fs.isEmpty && fs.all goodPlainName

/-- Round-trip-safe sort component: every sort field is a good name. -/
def goodSortList (sort : List SortSpec) : Bool :=
  sort.all (fun s => goodPlainName s.field)

/-- Round-trip-safe filter tree: no field name collides with a logical
operator keyword (a printed field named and / or / not re-parses as a
logical node). -/
def goodFilterTree : FilterNode → Bool
  | .field f _ _ => (logicalOperatorOfString f).isNone
  | .logical _ cs => go cs
where go : List FilterNode → Bool
  | [] => true
  | c :: rest => goodFilterTree c && go rest

/-- Round-trip safety for an optional filter tree. -/
def goodFilterOpt : Option FilterNode → Bool
  | none => true
  | some node => goodFilterTree node

/-- Number of FIELD_NOT_ALLOWED errors tagged with a given field name. -/
def countFieldNotAllowed (f : String) (errors : List SecurityError) : Nat :=
  errors.countP (fun e => e.code == SecurityErrorCode.FIELD_NOT_ALLOWED && e.field == f)

/-- Structural size of a filter node (induction measure). -/
def fnodeSize : FilterNode → Nat
  | .field _ _ _ => 1
  | .logical _ cs => 1 + go cs
where go : List FilterNode → Nat
  | [] => 0
  | c :: rest => fnodeSize c + go rest

/-! ## Helper lemmas -/

theorem fnodeSize_le_of_mem {c : FilterNode} {cs : List FilterNode} (hc : c ∈ cs) :
    fnodeSize c ≤ fnodeSize.go cs := by
  induction cs with
  | nil => cases hc
  | cons x rest ih =>
    rcases List.mem_cons.mp hc with h | h
    · subst h
      simp only [fnodeSize.go]
      exact Nat.le_add_right _ _
    · have := ih h
      simp only [fnodeSize.go]
      omega

theorem filterNodeInd {P : FilterNode → Prop}
    (hf : ∀ f op v, P (FilterNode.field f op v))
    (hl : ∀ lop cs, (∀ c ∈ cs, P c) → P (FilterNode.logical lop cs)) :
    ∀ n, P n := by
  have key : ∀ k n, fnodeSize n ≤ k → P n := by
    intro k
    induction k with
    | zero =>
      intro n h
      cases n <;> simp [fnodeSize] at h
    | succ k ih =>
      intro n h
      cases n with
      | field f op v => exact hf f op v
      | logical lop cs =>
        refine hl lop cs (fun c hc => ih c ?_)
        have h2 := fnodeSize_le_of_mem hc
        simp only [fnodeSize] at h
        omega
  exact fun n => key (fnodeSize n) n Nat.le.refl

/-! ## C10: validateSecurity on a null AST -/

/-- Claim C10: for every config, validateSecurity with a null AST
returns valid true, no errors, no warnings and a null AST. -/
theorem C10_null_ast (config : Option SecurityConfig) :
    validateSecurity none config =
      { valid := true, errors := [], warnings := [], ast := none } := rfl

/-! ## C3: validateLimit caps at min and warns iff capped -/

/-- Claim C3: validateLimit returns min(limit, maxLimit); a
LIMIT_CAPPED warning (recording originalValue = limit and
cappedValue = maxLimit) is present iff limit exceeds maxLimit. -/
theorem C3_limit_capping (limit maxLimit : Nat) :
    (validateLimit limit maxLimit).1 = min limit maxLimit ∧
    ((validateLimit limit maxLimit).2.isSome ↔ maxLimit < limit) ∧
    ∀ w, (validateLimit limit maxLimit).2 = some w →
      w.code = .LIMIT_CAPPED ∧ w.originalValue = limit ∧ w.cappedValue = maxLimit := by
  unfold validateLimit
  by_cases h : limit ≤ maxLimit
  · simp only [if_pos h]
    refine ⟨(Nat.min_eq_left h).symm, ?_, ?_⟩
    · simp only [Option.isSome_none, Bool.false_eq_true, false_iff]
      omega
    · intro w hw
      exact Option.noConfusion hw
  · simp only [if_neg h]
    have h2 : maxLimit < limit := Nat.lt_of_not_le h
    refine ⟨(Nat.min_eq_right (Nat.le_of_lt h2)).symm, ?_, ?_⟩
    · simp only [Option.isSome_some, true_iff]
      exact h2
    · intro w hw
      injection hw with hw
      subst hw
      simp

/-- Witness for C3 at limit 500, maxLimit 100. -/
theorem C3_limit_capping_witness :
    (validateLimit 500 100).1 = min 500 100 ∧
    ((validateLimit 500 100).2.isSome ↔ 100 < 500) ∧
    ∀ w, (validateLimit 500 100).2 = some w →
      w.code = .LIMIT_CAPPED ∧ w.originalValue = 500 ∧ w.cappedValue = 100 :=
  C3_limit_capping 500 100

/-! ## C4: parsePagination formula and silent fallbacks -/

/-- Claim C4: for positive numeric page and limit, parsePagination
returns offset (page - 1) * limit with the given limit; an absent,
non-numeric or non-positive page (resp. limit) falls back to page 1,
hence offset 0 (resp. limit 10), and pagination inputs never produce a
parse error (parse still returns an AST carrying this pagination). -/
theorem C4_pagination :
    (∀ page limit : Nat, 1 ≤ page → 1 ≤ limit →
        parsePagination (.num (page : Int)) (.num (limit : Int)) =
          { offset := (page - 1) * limit, limit := limit }) ∧
    (∀ pageParam limitParam, paramFallsBack pageParam = true →
        (parsePagination pageParam limitParam).offset = 0) ∧
    (∀ pageParam limitParam, paramFallsBack limitParam = true →
        (parsePagination pageParam limitParam).limit = 10) ∧
    (∀ fieldsIn sortIn pageParam limitParam,
        (parse { fields := fieldsIn, page := pageParam, limit := limitParam,
                 sort := sortIn, filter := none }).errors = [] ∧
        (parse { fields := fieldsIn, page := pageParam, limit := limitParam,
                 sort := sortIn, filter := none }).ast =
          some { fields := parseFields fieldsIn,
                 pagination := parsePagination pageParam limitParam,
                 sort := parseSort sortIn, filter := none }) := by
  refine ⟨?_, ?_, ?_, ?_⟩
  · intro page limit hp hl
    have hp2 : (0 : Int) < (page : Int) := by exact_mod_cast hp
    have hl2 : (0 : Int) < (limit : Int) := by exact_mod_cast hl
    simp [parsePagination, hp2, hl2]
  · intro pageParam limitParam hfb
    cases pageParam with
    | undef => simp [parsePagination, DEFAULT_PAGE]
    | nullv => simp [parsePagination, DEFAULT_PAGE]
    | num n =>
      simp only [paramFallsBack, decide_eq_true_eq] at hfb
      have : ¬(0 < n) := by omega
      simp [parsePagination, this, DEFAULT_PAGE]
    | str s =>
      simp only [paramFallsBack] at hfb
      rcases h : parseIntM s with _ | n
      · simp [parsePagination, h, DEFAULT_PAGE]
      · rw [h] at hfb
        simp only [decide_eq_true_eq] at hfb
        have : ¬(0 < n) := by omega
        simp [parsePagination, h, this, DEFAULT_PAGE]
  · intro pageParam limitParam hfb
    cases limitParam with
    | undef => simp [parsePagination, DEFAULT_PAGINATION]
    | nullv => simp [parsePagination, DEFAULT_PAGINATION]
    | num n =>
      simp only [paramFallsBack, decide_eq_true_eq] at hfb
      have : ¬(0 < n) := by omega
      simp [parsePagination, this, DEFAULT_PAGINATION]
    | str s =>
      simp only [paramFallsBack] at hfb
      rcases h : parseIntM s with _ | n
      · simp [parsePagination, h, DEFAULT_PAGINATION]
      · rw [h] at hfb
        simp only [decide_eq_true_eq] at hfb
        have : ¬(0 < n) := by omega
        simp [parsePagination, h, this, DEFAULT_PAGINATION]
  · intro fieldsIn sortIn pageParam limitParam
    exact ⟨rfl, rfl⟩

/-- Witness for C4 at page 3, limit 20 and the invalid inputs of the
parser unit tests. -/
theorem C4_pagination_witness :
    parsePagination (.num ((3 : Nat) : Int)) (.num ((20 : Nat) : Int)) =
      { offset := (3 - 1) * 20, limit := 20 } ∧
    (parsePagination (.str "invalid") (.str "10")).offset = 0 ∧
    (parsePagination (.str "1") (.str "-10")).limit = 10 :=
  ⟨C4_pagination.1 3 20 (by decide) (by decide),
   C4_pagination.2.1 (.str "invalid") (.str "10") (by decide),
   C4_pagination.2.2.1 (.str "1") (.str "-10") (by decide)⟩

theorem validateFields_code (fields : Option (List String)) (allowed : List String) :
    ∀ e ∈ validateFields fields allowed, e.code = SecurityErrorCode.FIELD_NOT_ALLOWED := by
  intro e he
  cases fields with
  | none => cases he
  | some fs =>
    simp only [validateFields] at he
    by_cases hg : (fs.isEmpty || allowed.isEmpty) = true
    · rw [if_pos hg] at he
      cases he
    · rw [if_neg hg] at he
      rcases List.mem_filterMap.mp he with ⟨f, _, hsome⟩
      by_cases hc : allowed.contains f = true
      · rw [if_pos hc] at hsome
        cases hsome
      · rw [if_neg hc] at hsome
        injection hsome with hsome
        subst hsome
        rfl

theorem validateFilterFields_code (filter : Option FilterNode) (allowed : List String)
    (path : List String) :
    ∀ e ∈ validateFilterFields filter allowed path,
      e.code = SecurityErrorCode.FIELD_NOT_ALLOWED := by
  intro e he
  simp only [validateFilterFields] at he
  by_cases hg : (allowed.isEmpty || filter.isNone) = true
  · rw [if_pos hg] at he
    cases he
  · rw [if_neg hg] at he
    rcases List.mem_filterMap.mp he with ⟨f, _, hsome⟩
    by_cases hc : allowed.contains f = true
    · rw [if_pos hc] at hsome
      cases hsome
    · rw [if_neg hc] at hsome
      injection hsome with hsome
      subst hsome
      rfl

theorem validateSortFields_code (sort : List SortSpec) (allowed : List String) :
    ∀ e ∈ validateSortFields sort allowed, e.code = SecurityErrorCode.FIELD_NOT_ALLOWED := by
  intro e he
  simp only [validateSortFields] at he
  by_cases hg : (allowed.isEmpty || sort.isEmpty) = true
  · rw [if_pos hg] at he
    cases he
  · rw [if_neg hg] at he
    rcases List.mem_filterMap.mp he with ⟨spec, _, hsome⟩
    by_cases hc : allowed.contains spec.field = true
    · rw [if_pos hc] at hsome
      cases hsome
    · rw [if_neg hc] at hsome
      injection hsome with hsome
      subst hsome
      rfl

theorem validateOperatorsNode_code :
    ∀ node : FilterNode, ∀ allowed path, ∀ e ∈ validateOperatorsNode node allowed path,
      e.code = SecurityErrorCode.OPERATOR_NOT_ALLOWED := by
  refine filterNodeInd ?_ ?_
  · intro f op v allowed path e he
    unfold validateOperatorsNode at he
    split at he
    · cases he
    · cases he with
      | head => rfl
      | tail _ h => cases h
  · intro lop cs ih allowed path e he
    unfold validateOperatorsNode at he
    have key : ∀ cs2, (∀ c ∈ cs2, ∀ al p, ∀ e2 ∈ validateOperatorsNode c al p,
        e2.code = SecurityErrorCode.OPERATOR_NOT_ALLOWED) →
        ∀ i, ∀ e2 ∈ validateOperatorsGo allowed path lop cs2 i,
          e2.code = SecurityErrorCode.OPERATOR_NOT_ALLOWED := by
      intro cs2 hcs2
      induction cs2 with
      | nil =>
        intro i e2 he2
        cases he2
      | cons c rest ihr =>
        intro i e2 he2
        unfold validateOperatorsGo at he2
        rcases List.mem_append.mp he2 with h | h
        · exact hcs2 c (List.mem_cons_self c rest) _ _ e2 h
        · exact ihr (fun c2 hc2 => hcs2 c2 (List.mem_cons_of_mem c hc2)) (i + 1) e2 h
    exact key cs ih 0 e he

theorem validateOperators_code (filter : Option FilterNode) (allowed : List FilterOperator) :
    ∀ e ∈ validateOperators filter allowed,
      e.code = SecurityErrorCode.OPERATOR_NOT_ALLOWED := by
  intro e he
  cases filter with
  | none => cases he
  | some node => exact validateOperatorsNode_code node allowed ["filter"] e he

theorem validateLimit_fst (limit maxLimit : Nat) :
    (validateLimit limit maxLimit).1 = min limit maxLimit := by
  unfold validateLimit
  by_cases h : limit ≤ maxLimit
  · simp [h, Nat.min_eq_left h]
  · simp [h, Nat.min_eq_right (Nat.le_of_lt (Nat.lt_of_not_le h))]

theorem validateLimit_snd_isSome (limit maxLimit : Nat) :
    (validateLimit limit maxLimit).2.isSome = true ↔ maxLimit < limit := by
  unfold validateLimit
  by_cases h : limit ≤ maxLimit
  · simp only [if_pos h, Option.isSome_none, Bool.false_eq_true, false_iff]
    omega
  · simp only [if_neg h, Option.isSome_some, true_iff]
    exact Nat.lt_of_not_le h

/-! ## C9: the validator changes at most pagination.limit -/

/-- Claim C9: validateSecurity returns a new AST that differs from the
input only in pagination.limit (capped to maxLimit); fields, sort,
filter and offset are unchanged, exceeding maxLimit alone never yields
an error (no LIMIT_EXCEEDED error is ever emitted, only a LIMIT_CAPPED
warning), and the adjusted AST is returned even when errors are
reported. -/
theorem C9_validator_frame (ast : QueryAST) (config : Option SecurityConfig) :
    (validateSecurity (some ast) config).ast =
      some { ast with pagination :=
        { offset := ast.pagination.offset,
          limit := min ast.pagination.limit (resolveSecurityConfig config).maxLimit } } ∧
    (∀ e ∈ (validateSecurity (some ast) config).errors,
        e.code ≠ SecurityErrorCode.LIMIT_EXCEEDED) ∧
    ((validateSecurity (some ast) config).warnings ≠ [] ↔
      (resolveSecurityConfig config).maxLimit < ast.pagination.limit) := by
  refine ⟨?_, ?_, ?_⟩
  · show some _ = _
    have hmin := validateLimit_fst ast.pagination.limit (resolveSecurityConfig config).maxLimit
    simp only [validateSecurity]
    rw [hmin]
  · intro e he
    simp only [validateSecurity] at he
    rcases List.mem_append.mp he with h | h
    · rcases List.mem_append.mp h with h2 | h2
      · rcases List.mem_append.mp h2 with h3 | h3
        · rw [validateFields_code _ _ e h3]
          intro hcontra
          cases hcontra
        · rw [validateFilterFields_code _ _ _ e h3]
          intro hcontra
          cases hcontra
      · rw [validateSortFields_code _ _ e h2]
        intro hcontra
        cases hcontra
    · rw [validateOperators_code _ _ e h]
      intro hcontra
      cases hcontra
  · simp only [validateSecurity]
    rcases hw : (validateLimit ast.pagination.limit (resolveSecurityConfig config).maxLimit).2
      with _ | w
    · have := validateLimit_snd_isSome ast.pagination.limit (resolveSecurityConfig config).maxLimit
      rw [hw] at this
      simp only [Option.isSome_none, Bool.false_eq_true, false_iff] at this
      simp [this]
    · have := validateLimit_snd_isSome ast.pagination.limit (resolveSecurityConfig config).maxLimit
      rw [hw] at this
      simp only [Option.isSome_some, true_iff] at this
      simp [this]

/-- Witness for C9 at a concrete AST and config (maxLimit 100, limit
500, a disallowed field producing an error). -/
theorem C9_validator_frame_witness :
    (validateSecurity
        (some
          { fields := some ["id", "secret"], pagination := { offset := 0, limit := 500 },
            sort := [], filter := none })
        (some
          { allowedFields := some ["id"], allowedRelations := none, maxLimit := some 100,
            operators := none, defaultLimit := none, defaultPage := none })).ast =
      some
        { fields := some ["id", "secret"], pagination := { offset := 0, limit := min 500 100 },
          sort := [], filter := none } :=
  (C9_validator_frame
    { fields := some ["id", "secret"], pagination := { offset := 0, limit := 500 },
      sort := [], filter := none }
    (some
      { allowedFields := some ["id"], allowedRelations := none, maxLimit := some 100,
        operators := none, defaultLimit := none, defaultPage := none })).1

/-! ## C5: logical composition in the compiler -/

/-- Claim C5: an and/or node whose compiled children reduce to a single
surviving condition compiles to exactly that condition (no unary
wrapper); a not node compiles to the negation of the first surviving
compiled child only, ignoring all further conditions. -/
theorem C5_logical_composition (table : TableModel) :
    (∀ (lop : LogicalOperator) (cs : List FilterNode) (c : Cond),
        (lop = .and ∨ lop = .or) →
        (compileNodeList table cs).1 = [c] →
        (compileNode table (.logical lop cs)).1 = some c) ∧
    (∀ cs : List FilterNode,
        (compileNode table (.logical .not cs)).1 =
          ((compileNodeList table cs).1.head?.map Cond.notC)) := by
  constructor
  · intro lop cs c hlop hone
    rcases hlop with rfl | rfl <;> simp [compileNode, hone]
  · intro cs
    rcases h : (compileNodeList table cs).1 with _ | ⟨c, rest⟩
    · simp [compileNode, h]
    · rcases rest with _ | ⟨d, rest2⟩
      · simp [compileNode, h]
      · simp [compileNode, h]

/-- Witness for C5: a two-child and with one unknown column collapses
to the surviving condition; not negates only its first child. -/
theorem C5_logical_composition_witness :
    (compileNode ["a"] (.logical .and [.field "a" .eq (.vint 1), .field "z" .eq (.vint 2)])).1 =
      some (.eqC "a" (.vint 1)) ∧
    (compileNode ["a"] (.logical .not [.field "a" .eq (.vint 1), .field "a" .ne (.vint 2)])).1 =
      ((compileNodeList ["a"] [.field "a" .eq (.vint 1), .field "a" .ne (.vint 2)]).1.head?.map
        Cond.notC) :=
  ⟨(C5_logical_composition ["a"]).1 .and _ _ (Or.inl rfl) rfl,
   (C5_logical_composition ["a"]).2 _⟩

/-! ## Counting lemmas for C1 -/

theorem countFieldNotAllowed_append (f : String) (a b : List SecurityError) :
    countFieldNotAllowed f (a ++ b) = countFieldNotAllowed f a + countFieldNotAllowed f b :=
  List.countP_append _ a b

theorem countFieldNotAllowed_eq_zero (f : String) (errs : List SecurityError)
    (h : ∀ e ∈ errs, e.code = SecurityErrorCode.OPERATOR_NOT_ALLOWED) :
    countFieldNotAllowed f errs = 0 := by
  refine List.countP_eq_zero.mpr ?_
  intro e he
  rw [h e he]
  simp [countFieldNotAllowed]

theorem countFNA_filterMap (fs : List String) (allowed : List String) (f : String)
    (mk : String → SecurityError)
    (hcode : ∀ x, (mk x).code = SecurityErrorCode.FIELD_NOT_ALLOWED)
    (hfield : ∀ x, (mk x).field = x) :
    countFieldNotAllowed f (fs.filterMap (fun x =>
      if allowed.contains x = true then none else some (mk x))) =
      if f ∈ allowed then 0 else fs.count f := by
  induction fs with
  | nil => simp [countFieldNotAllowed]
  | cons x rest ih =>
    by_cases hx : allowed.contains x = true
    · simp only [List.filterMap_cons, if_pos hx]
      rw [ih]
      by_cases hf : f ∈ allowed
      · simp [hf]
      · have hxf : (x == f) = false := by
          refine beq_eq_false_iff_ne.mpr ?_
          intro hcontra
          exact hf (hcontra ▸ List.elem_iff.mp hx)
        rw [if_neg hf, if_neg hf, List.count_cons, hxf]
        simp
    · simp only [List.filterMap_cons, if_neg hx]
      have hp : ((mk x).code == SecurityErrorCode.FIELD_NOT_ALLOWED && (mk x).field == f) =
          (x == f) := by
        simp [hcode x, hfield x]
      rw [countFieldNotAllowed, List.countP_cons]
      rw [countFieldNotAllowed] at ih
      rw [ih]
      by_cases hf : f ∈ allowed
      · have hxf : (x == f) = false := by
          refine beq_eq_false_iff_ne.mpr ?_
          intro hcontra
          subst hcontra
          exact hx (List.elem_iff.mpr hf)
        rw [if_pos hf]
        simp only [hp, hxf]
        simp [hf]
      · rw [if_neg hf, if_neg hf, List.count_cons]
        simp only [hp]

theorem dedupFirstAux_mem (l : List String) :
    ∀ seen x, x ∈ dedupFirstAux l seen ↔ x ∈ l ∧ x ∉ seen := by
  induction l with
  | nil =>
    intro seen x
    simp [dedupFirstAux]
  | cons y rest ih =>
    intro seen x
    by_cases hy : seen.contains y = true
    · have hyseen : y ∈ seen := List.elem_iff.mp hy
      rw [dedupFirstAux, if_pos hy, ih]
      constructor
      · rintro ⟨h1, h2⟩
        exact ⟨List.mem_cons_of_mem y h1, h2⟩
      · rintro ⟨h1, h2⟩
        rcases List.mem_cons.mp h1 with h3 | h3
        · exact absurd (h3 ▸ hyseen) h2
        · exact ⟨h3, h2⟩
    · have hyseen : y ∉ seen := fun hc => hy (List.elem_iff.mpr hc)
      rw [dedupFirstAux, if_neg hy]
      constructor
      · intro h1
        rcases List.mem_cons.mp h1 with h3 | h3
        · exact ⟨h3 ▸ List.mem_cons_self y rest, h3 ▸ hyseen⟩
        · rcases (ih (y :: seen) x).mp h3 with ⟨h4, h5⟩
          refine ⟨List.mem_cons_of_mem y h4, fun hc => h5 (List.mem_cons_of_mem y hc)⟩
      · rintro ⟨h1, h2⟩
        rcases List.mem_cons.mp h1 with h3 | h3
        · exact h3 ▸ List.mem_cons_self y _
        · by_cases hxy : x = y
          · exact hxy ▸ List.mem_cons_self y _
          · refine List.mem_cons_of_mem y ((ih (y :: seen) x).mpr ⟨h3, ?_⟩)
            intro hc
            rcases List.mem_cons.mp hc with h4 | h4
            · exact hxy h4
            · exact h2 h4

theorem dedupFirstAux_nodup (l : List String) : ∀ seen, (dedupFirstAux l seen).Nodup := by
  induction l with
  | nil =>
    intro seen
    simp [dedupFirstAux]
  | cons y rest ih =>
    intro seen
    by_cases hy : seen.contains y = true
    · rw [dedupFirstAux, if_pos hy]
      exact ih seen
    · rw [dedupFirstAux, if_neg hy]
      refine List.nodup_cons.mpr ⟨?_, ih (y :: seen)⟩
      intro hc
      rcases (dedupFirstAux_mem rest (y :: seen) y).mp hc with ⟨_, h2⟩
      exact h2 (List.mem_cons_self y seen)

theorem dedupFirst_mem (l : List String) (x : String) : x ∈ dedupFirst l ↔ x ∈ l := by
  rw [dedupFirst, dedupFirstAux_mem]
  simp

theorem dedupFirst_nodup (l : List String) : (dedupFirst l).Nodup :=
  dedupFirstAux_nodup l []

theorem dedupFirst_count (l : List String) (x : String) :
    (dedupFirst l).count x = if x ∈ l then 1 else 0 := by
  by_cases h : x ∈ l
  · rw [if_pos h]
    exact List.count_eq_one_of_mem (dedupFirst_nodup l) ((dedupFirst_mem l x).mpr h)
  · rw [if_neg h]
    exact List.count_eq_zero_of_not_mem (fun hc => h ((dedupFirst_mem l x).mp hc))

theorem countFNA_validateFields (fields : Option (List String)) (allowed : List String)
    (f : String) (hne : allowed ≠ []) :
    countFieldNotAllowed f (validateFields fields allowed) =
      if f ∈ allowed then 0 else (fields.getD []).count f := by
  cases fields with
  | none => simp [validateFields, countFieldNotAllowed]
  | some fs =>
    have hae : allowed.isEmpty = false := by
      cases allowed with
      | nil => exact absurd rfl hne
      | cons a rest => rfl
    simp only [validateFields, hae, Bool.or_false]
    by_cases hfs : fs.isEmpty = true
    · have : fs = [] := List.isEmpty_iff.mp hfs
      subst this
      simp [countFieldNotAllowed]
    · rw [if_neg (by simp [hfs])]
      rw [countFNA_filterMap fs allowed f (fun x => fieldNotAllowedError x allowed)
        (fun x => rfl) (fun x => rfl)]
      simp

theorem countFNA_validateFilterFields (filter : Option FilterNode) (allowed : List String)
    (path : List String) (f : String) (hne : allowed ≠ []) :
    countFieldNotAllowed f (validateFilterFields filter allowed path) =
      if f ∈ allowed then 0
      else if f ∈ extractFilterFields filter then 1 else 0 := by
  have hae : allowed.isEmpty = false := by
    cases allowed with
    | nil => exact absurd rfl hne
    | cons a rest => rfl
  cases filter with
  | none => simp [validateFilterFields, extractFilterFields, countFieldNotAllowed]
  | some node =>
    simp only [validateFilterFields, hae, Option.isNone_some, Bool.or_false, Bool.false_eq_true,
      if_false]
    rw [countFNA_filterMap (extractFilterFields (some node)) allowed f
      (fun x => filterFieldNotAllowedError x allowed path) (fun x => rfl) (fun x => rfl)]
    by_cases hf : f ∈ allowed
    · simp [hf]
    · rw [if_neg hf, if_neg hf]
      simp only [extractFilterFields]
      rw [dedupFirst_count]
      simp [dedupFirst_mem]

theorem countFNA_validateSortFields (sort : List SortSpec) (allowed : List String)
    (f : String) (hne : allowed ≠ []) :
    countFieldNotAllowed f (validateSortFields sort allowed) =
      if f ∈ allowed then 0 else (sort.map SortSpec.field).count f := by
  have hae : allowed.isEmpty = false := by
    cases allowed with
    | nil => exact absurd rfl hne
    | cons a rest => rfl
  by_cases hs : sort.isEmpty = true
  · have : sort = [] := List.isEmpty_iff.mp hs
    subst this
    simp [validateSortFields, countFieldNotAllowed]
  · simp only [validateSortFields, hae, Bool.false_or, hs, Bool.false_eq_true, if_false]
    have hrw : (sort.filterMap (fun spec =>
        if allowed.contains spec.field = true then none
        else some (sortFieldNotAllowedError spec.field allowed))) =
        ((sort.map SortSpec.field).filterMap (fun x =>
          if allowed.contains x = true then none
          else some (sortFieldNotAllowedError x allowed))) := by
      rw [List.filterMap_map]
      rfl
    rw [hrw]
    exact countFNA_filterMap _ allowed f (fun x => sortFieldNotAllowedError x allowed)
      (fun x => rfl) (fun x => rfl)

/-! ## C1: field enforcement over the three surfaces -/

/-- Claim C1: with a non-empty allowedFields, validateSecurity emits
exactly one FIELD_NOT_ALLOWED error tagged with f for each entry f of
the selected-fields array outside the allowlist, one for each distinct
field referenced in the filter tree outside the allowlist, and one for
each sort specification whose field is outside the allowlist; all are
collected (the exact count is given), and a field inside allowedFields
never produces such an error. -/
theorem C1_field_enforcement (ast : QueryAST) (config : SecurityConfig)
    (allowed : List String) (hcfg : config.allowedFields = some allowed) (hne : allowed ≠ [])
    (f : String) :
    countFieldNotAllowed f (validateSecurity (some ast) (some config)).errors =
      if f ∈ allowed then 0
      else (ast.fields.getD []).count f +
           (if f ∈ extractFilterFields ast.filter then 1 else 0) +
           (ast.sort.map SortSpec.field).count f := by
  have hres : (resolveSecurityConfig (some config)).allowedFields = allowed := by
    simp [resolveSecurityConfig, hcfg]
  simp only [validateSecurity, hres]
  rw [countFieldNotAllowed_append, countFieldNotAllowed_append, countFieldNotAllowed_append]
  rw [countFNA_validateFields ast.fields allowed f hne,
    countFNA_validateFilterFields ast.filter allowed ["filter"] f hne,
    countFNA_validateSortFields ast.sort allowed f hne,
    countFieldNotAllowed_eq_zero f _ (validateOperators_code ast.filter _)]
  by_cases hf : f ∈ allowed
  · simp [hf]
  · simp [hf]

/-- Witness for C1: spec scenario 3 (allowedFields [id], selected
fields [id, name]) extended with a filter and sort on name: name is
counted once per surface occurrence, id produces no error. -/
theorem C1_field_enforcement_witness :
    countFieldNotAllowed "name"
      (validateSecurity
        (some { fields := some ["id", "name"], pagination := { offset := 0, limit := 10 },
                sort := [{ field := "name", direction := .asc }],
                filter := some (.field "name" .eq (.vstr "x")) })
        (some { allowedFields := some ["id"], allowedRelations := none, maxLimit := none,
                operators := none, defaultLimit := none, defaultPage := none })).errors = 3 ∧
    countFieldNotAllowed "id"
      (validateSecurity
        (some { fields := some ["id", "name"], pagination := { offset := 0, limit := 10 },
                sort := [{ field := "name", direction := .asc }],
                filter := some (.field "name" .eq (.vstr "x")) })
        (some { allowedFields := some ["id"], allowedRelations := none, maxLimit := none,
                operators := none, defaultLimit := none, defaultPage := none })).errors = 0 := by
  constructor
  · rw [C1_field_enforcement _ _ ["id"] rfl (by decide) "name"]
    decide
  · rw [C1_field_enforcement _ _ ["id"] rfl (by decide) "id"]
    decide

/-! ## Lemmas for C6 -/

theorem compileFields_foldl_mem (table : TableModel) (fs : List String) :
    ∀ acc, (∀ x ∈ acc, table.contains x = true) →
      ∀ x ∈ fs.foldl (fun acc f => if table.contains f = true then insertColumnKey f acc else acc)
        acc, table.contains x = true := by
  induction fs with
  | nil =>
    intro acc hacc x hx
    exact hacc x hx
  | cons f rest ih =>
    intro acc hacc x hx
    by_cases hf : table.contains f = true
    · rw [List.foldl_cons, if_pos hf] at hx
      refine ih (insertColumnKey f acc) ?_ x hx
      intro y hy
      unfold insertColumnKey at hy
      split at hy
      · exact hacc y hy
      · rcases List.mem_append.mp hy with h | h
        · exact hacc y h
        · rcases List.mem_singleton.mp h with rfl
          exact hf
    · rw [List.foldl_cons, if_neg hf] at hx
      exact ih acc hacc x hx

theorem compileFields_foldl_all_unknown (table : TableModel) (fs : List String)
    (h : ∀ f ∈ fs, table.contains f = false) :
    ∀ acc, fs.foldl (fun acc f => if table.contains f = true then insertColumnKey f acc else acc)
      acc = acc := by
  induction fs with
  | nil =>
    intro acc
    rfl
  | cons f rest ih =>
    intro acc
    have hf0 : table.contains f = false := h f (List.mem_cons_self f rest)
    rw [List.foldl_cons, if_neg (by intro hc; rw [hf0] at hc; cases hc)]
    exact ih (fun g hg => h g (List.mem_cons_of_mem f hg)) acc

theorem compileSort_orderBy (table : TableModel) (sort : List SortSpec) :
    (compileSort sort table).1 =
      (sort.filter (fun s => table.contains s.field)).map (fun s =>
        match s.direction with
        | .desc => OrderBy.descO s.field
        | .asc => OrderBy.ascO s.field) := by
  induction sort with
  | nil => rfl
  | cons spec rest ih =>
    by_cases hs : table.contains spec.field = true
    · simp only [compileSort, hs, if_pos, List.filter_cons, List.map_cons, ih]
    · simp only [compileSort, hs, Bool.false_eq_true, if_false, List.filter_cons, ih]

theorem compileSort_errors (table : TableModel) (sort : List SortSpec) :
    ∀ s ∈ sort, table.contains s.field = false →
      unknownSortColumnError s.field ∈ (compileSort sort table).2 := by
  induction sort with
  | nil =>
    intro s hs
    cases hs
  | cons spec rest ih =>
    intro s hs hcol
    rcases List.mem_cons.mp hs with rfl | hmem
    · simp only [compileSort, hcol, Bool.false_eq_true, if_false]
      exact List.mem_cons_self _ _
    · by_cases hspec : table.contains spec.field = true
      · simp only [compileSort, hspec, if_pos]
        exact ih s hmem hcol
      · simp only [compileSort, hspec, Bool.false_eq_true, if_false]
        exact List.mem_cons_of_mem _ (ih s hmem hcol)

theorem condColsGo_of_all (table : TableModel) (l : List Cond)
    (h : ∀ x ∈ l, condColsIn table x = true) : condColsIn.go table l = true := by
  induction l with
  | nil => rfl
  | cons c rest ih =>
    simp only [condColsIn.go, Bool.and_eq_true]
    exact ⟨h c (List.mem_cons_self c rest), ih (fun x hx => h x (List.mem_cons_of_mem c hx))⟩

theorem compileOperator_cols (table : TableModel) (f : String) (hcol : table.contains f = true) :
    ∀ (op : FilterOperator) (v : QVal) (fn : String) (c : Cond),
      (compileOperator f op v fn).1 = some c → condColsIn table c = true := by
  intro op v fn c h
  have hmem : f ∈ table := List.elem_iff.mp hcol
  cases op <;> simp only [compileOperator] at h
  case between =>
    split at h
    · injection h with h
      subst h
      simp [condColsIn, hcol, hmem]
    · cases h
  all_goals
    injection h with h
  all_goals
    subst h
  all_goals
    simp [condColsIn, hcol, hmem]

theorem compileNodeList_cols (table : TableModel) (cs : List FilterNode)
    (ih : ∀ c ∈ cs, ∀ cond, (compileNode table c).1 = some cond → condColsIn table cond = true) :
    ∀ cond ∈ (compileNodeList table cs).1, condColsIn table cond = true := by
  induction cs with
  | nil =>
    intro cond hc
    cases hc
  | cons c rest ihr =>
    intro cond hc
    simp only [compileNodeList] at hc
    rcases hhd : (compileNode table c).1 with _ | chd
    · rw [hhd] at hc
      exact ihr (fun x hx => ih x (List.mem_cons_of_mem c hx)) cond hc
    · rw [hhd] at hc
      rcases List.mem_cons.mp hc with rfl | hmem
      · exact ih c (List.mem_cons_self c rest) cond hhd
      · exact ihr (fun x hx => ih x (List.mem_cons_of_mem c hx)) cond hmem

theorem compileNode_cols (table : TableModel) :
    ∀ node : FilterNode, ∀ c, (compileNode table node).1 = some c →
      condColsIn table c = true := by
  refine filterNodeInd ?_ ?_
  · intro f op v c h
    simp only [compileNode] at h
    by_cases hf : table.contains f = true
    · rw [if_pos hf] at h
      exact compileOperator_cols table f hf op v f c h
    · rw [if_neg hf] at h
      cases h
  · intro lop cs ih c h
    have hlist := compileNodeList_cols table cs (fun x hx cond hc => ih x hx cond hc)
    simp only [compileNode] at h
    rcases hl : (compileNodeList table cs).1 with _ | ⟨c1, rest⟩
    · rw [hl] at h
      cases h
    · rw [hl] at h
      have hc1 : condColsIn table c1 = true := hlist c1 (hl ▸ List.mem_cons_self c1 rest)
      rcases rest with _ | ⟨c2, rest2⟩
      · cases lop <;> simp only [] at h <;> injection h with h <;> subst h
        · exact hc1
        · exact hc1
        · simp [condColsIn, hc1]
      · have hall : ∀ x ∈ c1 :: c2 :: rest2, condColsIn table x = true := by
          intro x hx
          exact hlist x (hl ▸ hx)
        cases lop <;> simp only [] at h <;> injection h with h <;> subst h
        · simp only [condColsIn]
          exact condColsGo_of_all table _ hall
        · simp only [condColsIn]
          exact condColsGo_of_all table _ hall
        · simp [condColsIn, hc1]

theorem collectGo_mem (cs : List FilterNode) (f : String) :
    f ∈ collectFilterFields.go cs ↔ ∃ c ∈ cs, f ∈ collectFilterFields c := by
  induction cs with
  | nil => simp [collectFilterFields.go]
  | cons c rest ih =>
    simp only [collectFilterFields.go, List.mem_append, ih]
    constructor
    · rintro (h | ⟨c2, hc2, hf2⟩)
      · exact ⟨c, List.mem_cons_self c rest, h⟩
      · exact ⟨c2, List.mem_cons_of_mem c hc2, hf2⟩
    · rintro ⟨c2, hc2, hf2⟩
      rcases List.mem_cons.mp hc2 with rfl | hmem
      · exact Or.inl hf2
      · exact Or.inr ⟨c2, hmem, hf2⟩

theorem compileNodeList_errors_sub (table : TableModel) (cs : List FilterNode) :
    ∀ c ∈ cs, ∀ e ∈ (compileNode table c).2, e ∈ (compileNodeList table cs).2 := by
  induction cs with
  | nil =>
    intro c hc
    cases hc
  | cons c1 rest ih =>
    intro c hc e he
    unfold compileNodeList
    rcases List.mem_cons.mp hc with rfl | hmem
    · exact List.mem_append.mpr (Or.inl he)
    · exact List.mem_append.mpr (Or.inr (ih c hmem e he))

theorem compileNode_unknown_errors (table : TableModel) :
    ∀ node : FilterNode, ∀ f ∈ collectFilterFields node, table.contains f = false →
      ∃ e ∈ (compileNode table node).2,
        e.code = CompileErrorCode.UNKNOWN_COLUMN ∧ e.field = f := by
  refine filterNodeInd ?_ ?_
  · intro f0 op v f hf hcol
    rcases List.mem_singleton.mp hf with rfl
    simp only [compileNode]
    rw [if_neg (by intro hc; rw [hcol] at hc; cases hc)]
    exact ⟨unknownFilterColumnError f, List.mem_cons_self _ _, rfl, rfl⟩
  · intro lop cs ih f hf hcol
    rcases (collectGo_mem cs f).mp hf with ⟨c, hc, hfc⟩
    rcases ih c hc f hfc hcol with ⟨e, he, hcode, hfield⟩
    refine ⟨e, ?_, hcode, hfield⟩
    have hsub := compileNodeList_errors_sub table cs c hc e he
    have h2eq : (compileNode table (.logical lop cs)).2 = (compileNodeList table cs).2 := by
      rcases hl : (compileNodeList table cs).1 with _ | ⟨c1, rest⟩
      · simp [compileNode, hl]
      · rcases rest with _ | ⟨c2, rest2⟩ <;> cases lop <;> simp [compileNode, hl]
    rw [h2eq]
    exact hsub

theorem compileFields_errors_eq (fs : List String) (table : TableModel) :
    (compileFields (some fs) table).2.1 =
      (fs.filter (fun f => !table.contains f)).map unknownColumnError := by
  simp only [compileFields]
  split <;> rfl

theorem compileFields_columns_some (fs : List String) (table : TableModel)
    (cols : List String) (h : (compileFields (some fs) table).1 = some cols) :
    cols = fs.foldl
      (fun acc f => if table.contains f = true then insertColumnKey f acc else acc) [] := by
  simp only [compileFields] at h
  split at h
  · cases h
  · injection h with h
    exact h.symm

/-! ## C6: best-effort compilation with per-field recovery -/

/-- Claim C6: compile never aborts; pagination passes through; every
selected, sort or filter field that does not resolve to a table column
emits an UNKNOWN_COLUMN error tagged with it and is excluded from the
corresponding output (selection, ordering, predicate); and a non-empty
field request in which every field is unknown falls back to all
columns (none) with a COLUMN_IGNORED warning, never an empty
selection. -/
theorem C6_compiler_recovery (ast : QueryAST) (table : TableModel) :
    (compile ast table).query.limit = ast.pagination.limit ∧
    (compile ast table).query.offset = ast.pagination.offset ∧
    (∀ fs, ast.fields = some fs →
      (∀ f ∈ fs, table.contains f = false →
        (∃ e ∈ (compile ast table).errors,
          e.code = CompileErrorCode.UNKNOWN_COLUMN ∧ e.field = f) ∧
        (∀ cols, (compile ast table).query.columns = some cols → f ∉ cols)) ∧
      (fs ≠ [] → (∀ f ∈ fs, table.contains f = false) →
        (compile ast table).query.columns = none ∧
        ∃ w ∈ (compile ast table).warnings, w.code = CompileWarningCode.COLUMN_IGNORED)) ∧
    ((compile ast table).query.orderBy =
      (ast.sort.filter (fun s => table.contains s.field)).map (fun s =>
        match s.direction with
        | .desc => OrderBy.descO s.field
        | .asc => OrderBy.ascO s.field)) ∧
    (∀ s ∈ ast.sort, table.contains s.field = false →
      ∃ e ∈ (compile ast table).errors,
        e.code = CompileErrorCode.UNKNOWN_COLUMN ∧ e.field = s.field) ∧
    (∀ node, ast.filter = some node → ∀ f ∈ collectFilterFields node,
      table.contains f = false →
      ∃ e ∈ (compile ast table).errors,
        e.code = CompileErrorCode.UNKNOWN_COLUMN ∧ e.field = f) ∧
    (∀ c, (compile ast table).query.whereC = some c → condColsIn table c = true) := by
  refine ⟨rfl, rfl, ?_, ?_, ?_, ?_, ?_⟩
  · intro fs hfs
    constructor
    · intro f hf hcol
      constructor
      · refine ⟨unknownColumnError f, ?_, rfl, rfl⟩
        show _ ∈ (compileFields ast.fields table).2.1 ++ (compileSort ast.sort table).2 ++
          (compileFilter ast.filter table).2
        refine List.mem_append.mpr (Or.inl (List.mem_append.mpr (Or.inl ?_)))
        rw [hfs, compileFields_errors_eq]
        refine List.mem_map.mpr ⟨f, ?_, rfl⟩
        refine List.mem_filter.mpr ⟨hf, ?_⟩
        rw [hcol]
        rfl
      · intro cols hcols f_in
        have hcols2 : (compileFields ast.fields table).1 = some cols := hcols
        rw [hfs] at hcols2
        have := compileFields_columns_some fs table cols hcols2
        subst this
        have := compileFields_foldl_mem table fs [] (by intro x hx; cases hx) f f_in
        rw [hcol] at this
        cases this
    · intro hne hall
      have hfold := compileFields_foldl_all_unknown table fs hall []
      have hcf : compileFields (some fs) table =
          (none, (fs.filter (fun f => !table.contains f)).map unknownColumnError,
            [allFieldsInvalidWarning table]) := by
        simp only [compileFields, hfold]
        rw [if_pos ?_]
        simp only [List.isEmpty_nil, Bool.true_and]
        cases fs with
        | nil => exact absurd rfl hne
        | cons a rest => rfl
      constructor
      · show (compileFields ast.fields table).1 = none
        rw [hfs, hcf]
      · refine ⟨allFieldsInvalidWarning table, ?_, rfl⟩
        show _ ∈ (compileFields ast.fields table).2.2
        rw [hfs, hcf]
        exact List.mem_singleton.mpr rfl
  · show (compileSort ast.sort table).1 = _
    exact compileSort_orderBy table ast.sort
  · intro s hs hcol
    refine ⟨unknownSortColumnError s.field, ?_, rfl, rfl⟩
    show _ ∈ (compileFields ast.fields table).2.1 ++ (compileSort ast.sort table).2 ++
      (compileFilter ast.filter table).2
    exact List.mem_append.mpr (Or.inl (List.mem_append.mpr
      (Or.inr (compileSort_errors table ast.sort s hs hcol))))
  · intro node hnode f hf hcol
    rcases compileNode_unknown_errors table node f hf hcol with ⟨e, he, hcode, hfield⟩
    refine ⟨e, ?_, hcode, hfield⟩
    show _ ∈ (compileFields ast.fields table).2.1 ++ (compileSort ast.sort table).2 ++
      (compileFilter ast.filter table).2
    refine List.mem_append.mpr (Or.inr ?_)
    rw [hnode]
    exact he
  · intro c hc
    have hc2 : (compileFilter ast.filter table).1 = some c := hc
    cases hfil : ast.filter with
    | none =>
      rw [hfil] at hc2
      cases hc2
    | some node =>
      rw [hfil] at hc2
      exact compileNode_cols table node c hc2

/-- Witness for C6 at a concrete AST and two-column table: one unknown
selected field, one unknown sort field and one unknown filter field. -/
theorem C6_compiler_recovery_witness :
    ∃ e ∈ (compile
      { fields := some ["id", "bogus"], pagination := { offset := 5, limit := 7 },
        sort := [{ field := "ghost", direction := .desc }],
        filter := some (.field "phantom" .eq (.vint 1)) }
      ["id", "name"]).errors,
      e.code = CompileErrorCode.UNKNOWN_COLUMN ∧ e.field = "bogus" :=
  (((C6_compiler_recovery
    { fields := some ["id", "bogus"], pagination := { offset := 5, limit := 7 },
      sort := [{ field := "ghost", direction := .desc }],
      filter := some (.field "phantom" .eq (.vint 1)) }
    ["id", "name"]).2.2.1 ["id", "bogus"] rfl).1 "bogus" (by decide) (by decide)).1

/-! ## Lemmas for C8 -/

theorem mapGet_head {V : Type} (k0 : String) (e0 : CacheEntry V)
    (rest : List (String × CacheEntry V)) : mapGet k0 ((k0, e0) :: rest) = some e0 := by
  simp [mapGet, List.find?]

theorem mapRemove_of_not_mem {V : Type} (key : String) (l : List (String × CacheEntry V))
    (h : key ∉ l.map Prod.fst) : mapRemove key l = l := by
  refine List.filter_eq_self.mpr ?_
  intro kv hkv
  refine bne_iff_ne.mpr ?_
  intro hc
  exact h (hc ▸ List.mem_map.mpr ⟨kv, hkv, rfl⟩)

theorem mapGet_mapRemove_self {V : Type} (key : String) (l : List (String × CacheEntry V)) :
    mapGet key (mapRemove key l) = none := by
  have : (mapRemove key l).find? (fun kv => kv.1 == key) = none := by
    refine List.find?_eq_none.mpr ?_
    intro kv hkv
    have := (List.mem_filter.mp hkv).2
    intro hc
    rw [bne_iff_ne] at this
    exact this (by simpa using hc)
  simp [mapGet, this]

theorem evictLoop_step {V : Type} (maxSize fuel : Nat) (st : CacheState V)
    (h : maxSize ≤ st.entries.length) (hne : st.entries ≠ []) :
    evictLoop maxSize (fuel + 1) st = evictLoop maxSize fuel (evictLRU st) := by
  rw [show evictLoop maxSize (fuel + 1) st =
    (if maxSize ≤ st.entries.length then
      (match st.entries with
       | [] => st
       | _ => evictLoop maxSize fuel (evictLRU st))
     else st) from rfl]
  rw [if_pos h]
  rcases hE : st.entries with _ | ⟨kv, tail⟩
  · exact absurd hE hne
  · rfl

theorem evictLoop_stop {V : Type} (maxSize fuel : Nat) (st : CacheState V)
    (h : ¬maxSize ≤ st.entries.length) :
    evictLoop maxSize (fuel + 1) st = st := by
  unfold evictLoop
  rw [if_neg h]

/-! ## C8: cache capacity eviction and TTL expiry -/

/-- Claim C8: a set of a fresh key into a cache at capacity evicts
exactly the first (least-recently-used) Map binding, with the capacity
eviction counters bumped by one, before appending the new entry; under
the recency ordering the Map maintains, that first binding has the
least lastAccessedAt.  A get more than ttl milliseconds after an
entry's creation misses (returns none), counts one miss, records one
expired eviction and removes the binding. -/
theorem C8_cache_lru_ttl {V : Type} (cfg : CacheConfig) (estimateSize : V → Nat) :
    (∀ (st : CacheState V) (key : String) (value : V) (now : Nat)
        (k0 : String) (e0 : CacheEntry V) (rest : List (String × CacheEntry V)),
        st.entries = (k0, e0) :: rest →
        st.entries.length = cfg.maxSize →
        mapGet key st.entries = none →
        (st.entries.map Prod.fst).Nodup →
        (cacheSet cfg estimateSize now key value st).entries =
          rest ++ [(key, { value := value, createdAt := now, lastAccessedAt := now,
                           accessCount := 1, size := estimateSize value })] ∧
        (cacheSet cfg estimateSize now key value st).evCapacity = st.evCapacity + 1 ∧
        (cacheSet cfg estimateSize now key value st).evictions = st.evictions + 1 ∧
        (st.entries.Pairwise (fun a b => a.2.lastAccessedAt ≤ b.2.lastAccessedAt) →
          ∀ kv ∈ rest, e0.lastAccessedAt ≤ kv.2.lastAccessedAt)) ∧
    (∀ (st : CacheState V) (key : String) (now : Nat) (entry : CacheEntry V),
        mapGet key st.entries = some entry →
        cfg.ttl < now - entry.createdAt →
        (cacheGet cfg now key st).1 = none ∧
        (cacheGet cfg now key st).2.misses = st.misses + 1 ∧
        (cacheGet cfg now key st).2.evExpired = st.evExpired + 1 ∧
        mapGet key (cacheGet cfg now key st).2.entries = none) := by
  constructor
  · intro st key value now k0 e0 rest hentries hlen hfresh hnodup
    have hlen2 : rest.length + 1 = cfg.maxSize := by
      rw [← hlen, hentries]
      rfl
    have hk0rest : k0 ∉ rest.map Prod.fst := by
      rw [hentries] at hnodup
      simp only [List.map_cons] at hnodup
      exact (List.nodup_cons.mp hnodup).1
    have h2 : mapRemove k0 ((k0, e0) :: rest) = rest := by
      have h3 := mapRemove_of_not_mem k0 rest hk0rest
      unfold mapRemove at h3 ⊢
      rw [List.filter_cons]
      simp only [bne_self_eq_false, Bool.false_eq_true, if_false]
      exact h3
    have hevictLRU : evictLRU st =
        { st with entries := rest, evictions := st.evictions + 1,
                  evCapacity := st.evCapacity + 1 } := by
      have h1 : evictLRU st = evict k0 .capacity st := by
        unfold evictLRU
        rw [hentries]
      rw [h1]
      unfold evict
      rw [hentries, mapGet_head, h2]
      rfl
    have hskip : (if (mapGet key st.entries).isSome = true
        then { st with entries := mapRemove key st.entries } else st) = st := by
      rw [hfresh]
      rfl
    have hloop : evictLoop cfg.maxSize (st.entries.length + 1) st =
        { st with entries := rest, evictions := st.evictions + 1,
                  evCapacity := st.evCapacity + 1 } := by
      have hlen3 : st.entries.length = rest.length + 1 := by
        rw [hentries]
        rfl
      rw [evictLoop_step cfg.maxSize st.entries.length st (by omega)
        (by rw [hentries]; exact List.cons_ne_nil _ _)]
      rw [hevictLRU, hlen3]
      refine evictLoop_stop cfg.maxSize rest.length _ ?_
      show ¬(cfg.maxSize ≤ rest.length)
      omega
    have hset : cacheSet cfg estimateSize now key value st =
        { st with
            entries := rest ++ [(key, { value := value, createdAt := now,
                                        lastAccessedAt := now, accessCount := 1,
                                        size := estimateSize value })],
            evictions := st.evictions + 1, evCapacity := st.evCapacity + 1 } := by
      simp only [cacheSet]
      rw [hskip, hloop]
    rw [hset]
    refine ⟨rfl, rfl, rfl, ?_⟩
    intro hsorted kv hkv
    rw [hentries] at hsorted
    exact (List.pairwise_cons.mp hsorted).1 kv hkv
  · intro st key now entry hget httl
    have hexp : isExpired cfg now entry = true := by
      simp [isExpired, httl]
    have hevict : evict key .expired st =
        { st with entries := mapRemove key st.entries, evictions := st.evictions + 1,
                  evExpired := st.evExpired + 1 } := by
      unfold evict
      rw [hget]
      rfl
    have hcg : cacheGet cfg now key st =
        (none,
          { st with
              entries := mapRemove key st.entries,
              evictions := st.evictions + 1, evExpired := st.evExpired + 1,
              misses := st.misses + 1 }) := by
      unfold cacheGet
      rw [hget]
      simp only [hexp, if_pos, hevict]
    rw [hcg]
    exact ⟨rfl, rfl, rfl, mapGet_mapRemove_self key st.entries⟩

/-- Witness for C8 at a two-entry cache with maxSize 2 and ttl 100:
setting key c evicts key a (capacity); getting key a at time 101 after
creation at 0 expires it. -/
theorem C8_cache_lru_ttl_witness :
    (cacheSet { maxSize := 2, ttl := 100 } (fun _ => 8) 2 "c" (3 : Nat)
      { entries := [("a", { value := 1, createdAt := 0, lastAccessedAt := 0,
                            accessCount := 1, size := 8 }),
                    ("b", { value := 2, createdAt := 1, lastAccessedAt := 1,
                            accessCount := 1, size := 8 })],
        hits := 0, misses := 0, evictions := 0, evExpired := 0, evCapacity := 0,
        evManual := 0, evClear := 0 }).entries =
      [("b", { value := 2, createdAt := 1, lastAccessedAt := 1, accessCount := 1, size := 8 })] ++
        [("c", { value := 3, createdAt := 2, lastAccessedAt := 2, accessCount := 1, size := 8 })] ∧
    (cacheGet { maxSize := 2, ttl := 100 } 101 "a"
      { entries := [("a", { value := (1 : Nat), createdAt := 0, lastAccessedAt := 0,
                            accessCount := 1, size := 8 })],
        hits := 0, misses := 0, evictions := 0, evExpired := 0, evCapacity := 0,
        evManual := 0, evClear := 0 }).1 = none := by
  constructor
  · exact ((C8_cache_lru_ttl { maxSize := 2, ttl := 100 } (fun _ => 8)).1
      { entries := [("a", { value := 1, createdAt := 0, lastAccessedAt := 0,
                            accessCount := 1, size := 8 }),
                    ("b", { value := 2, createdAt := 1, lastAccessedAt := 1,
                            accessCount := 1, size := 8 })],
        hits := 0, misses := 0, evictions := 0, evExpired := 0, evCapacity := 0,
        evManual := 0, evClear := 0 }
      "c" 3 2 "a"
      { value := 1, createdAt := 0, lastAccessedAt := 0, accessCount := 1, size := 8 }
      [("b", { value := 2, createdAt := 1, lastAccessedAt := 1, accessCount := 1, size := 8 })]
      rfl rfl rfl (by decide)).1
  · exact ((C8_cache_lru_ttl { maxSize := 2, ttl := 100 } (fun _ => 8)).2
      { entries := [("a", { value := (1 : Nat), createdAt := 0, lastAccessedAt := 0,
                            accessCount := 1, size := 8 })],
        hits := 0, misses := 0, evictions := 0, evExpired := 0, evCapacity := 0,
        evManual := 0, evClear := 0 }
      "a" 101
      { value := 1, createdAt := 0, lastAccessedAt := 0, accessCount := 1, size := 8 }
      rfl (by decide)).1

/-! ## Lemmas for C7 -/

theorem toDigitsCore_ne_nil (b : Nat) : ∀ (f n : Nat) (l : List Char), l ≠ [] →
    Nat.toDigitsCore b f n l ≠ [] := by
  intro f
  induction f with
  | zero =>
    intro n l h
    exact h
  | succ f ih =>
    intro n l h
    rw [show Nat.toDigitsCore b (f + 1) n l =
      (if n / b = 0 then (n % b).digitChar :: l
       else Nat.toDigitsCore b f (n / b) ((n % b).digitChar :: l)) from rfl]
    split
    · exact List.cons_ne_nil _ _
    · exact ih _ _ (List.cons_ne_nil _ _)

theorem toString_nat_pos (i : Nat) : 0 < (toString i).length := by
  show 0 < (Nat.repr i).length
  have h : Nat.toDigits 10 i ≠ [] := by
    rw [show Nat.toDigits 10 i = Nat.toDigitsCore 10 (i + 1) i [] from rfl]
    rw [show Nat.toDigitsCore 10 (i + 1) i [] =
      (if i / 10 = 0 then (i % 10).digitChar :: []
       else Nat.toDigitsCore 10 i (i / 10) [(i % 10).digitChar]) from rfl]
    split
    · exact List.cons_ne_nil _ _
    · exact toDigitsCore_ne_nil 10 i (i / 10) _ (List.cons_ne_nil _ _)
  rcases hE : Nat.toDigits 10 i with _ | ⟨c, rest⟩
  · exact absurd hE h
  · unfold Nat.repr
    rw [hE]
    simp [List.asString, String.length]

theorem collectConds_mem (results : List (Option FilterNode × List ParseError)) :
    ∀ node ∈ (collectConds results).1, ∃ pr ∈ results, pr.1 = some node := by
  induction results with
  | nil =>
    intro node h
    cases h
  | cons pr rest ih =>
    intro node h
    simp only [collectConds] at h
    rcases hpr : pr.1 with _ | c
    · rw [hpr] at h
      rcases ih node h with ⟨pr2, hpr2, hsome⟩
      exact ⟨pr2, List.mem_cons_of_mem pr hpr2, hsome⟩
    · rw [hpr] at h
      rcases List.mem_cons.mp h with rfl | hmem
      · exact ⟨pr, List.mem_cons_self pr rest, hpr⟩
      · rcases ih node hmem with ⟨pr2, hpr2, hsome⟩
        exact ⟨pr2, List.mem_cons_of_mem pr hpr2, hsome⟩

theorem validGo_of_all (cs : List FilterNode) (h : ∀ c ∈ cs, validFilterNode c = true) :
    validFilterNode.go cs = true := by
  induction cs with
  | nil => rfl
  | cons c rest ih =>
    simp only [validFilterNode.go, Bool.and_eq_true]
    exact ⟨h c (List.mem_cons_self c rest), ih (fun x hx => h x (List.mem_cons_of_mem c hx))⟩

theorem validFilterNode_logical (lop : LogicalOperator) (cs : List FilterNode)
    (hne : cs ≠ []) (h : ∀ c ∈ cs, validFilterNode c = true) :
    validFilterNode (.logical lop cs) = true := by
  simp only [validFilterNode, Bool.and_eq_true]
  refine ⟨?_, validGo_of_all cs h⟩
  cases cs with
  | nil => exact absurd rfl hne
  | cons a rest => rfl

theorem goObj_mem (kvs : List (String × QVal)) (h : qvalKeysNonempty.goObj kvs = true) :
    ∀ kv ∈ kvs, (kv.1.length != 0) = true ∧ qvalKeysNonempty kv.2 = true := by
  induction kvs with
  | nil =>
    intro kv hkv
    cases hkv
  | cons kv0 rest ih =>
    intro kv hkv
    simp only [qvalKeysNonempty.goObj, Bool.and_eq_true] at h
    rcases List.mem_cons.mp hkv with rfl | hmem
    · exact ⟨h.1.1, h.1.2⟩
    · exact ih h.2 kv hmem

theorem goArr_mem (xs : List QVal) (h : qvalKeysNonempty.goArr xs = true) :
    ∀ x ∈ xs, qvalKeysNonempty x = true := by
  induction xs with
  | nil =>
    intro x hx
    cases hx
  | cons x0 rest ih =>
    intro x hx
    simp only [qvalKeysNonempty.goArr, Bool.and_eq_true] at h
    rcases List.mem_cons.mp hx with rfl | hmem
    · exact h.1
    · exact ih h.2 x hmem

theorem jsArrayKeyed_sub (xs : List QVal) :
    ∀ kv ∈ jsArrayKeyed xs, (kv.1.length != 0) = true ∧ kv.2 ∈ xs := by
  intro kv hkv
  rcases List.mem_map.mp hkv with ⟨p, hp, hkv2⟩
  subst hkv2
  constructor
  · have := toString_nat_pos p.1
    simp only [bne_iff_ne, ne_eq]
    omega
  · have := List.enum_map_snd xs
    exact this ▸ List.mem_map.mpr ⟨p, hp, rfl⟩

theorem insertByKeyNum_mem (kv0 : String × QVal) (l : List (String × QVal)) :
    ∀ kv ∈ insertByKeyNum kv0 l, kv = kv0 ∨ kv ∈ l := by
  induction l with
  | nil =>
    intro kv hkv
    rcases List.mem_singleton.mp hkv with rfl
    exact Or.inl rfl
  | cons hd tl ih =>
    intro kv hkv
    simp only [insertByKeyNum] at hkv
    split at hkv
    · rcases List.mem_cons.mp hkv with rfl | hmem
      · exact Or.inr (List.mem_cons_self _ _)
      · rcases ih kv hmem with h | h
        · exact Or.inl h
        · exact Or.inr (List.mem_cons_of_mem hd h)
    · rcases List.mem_cons.mp hkv with rfl | hmem
      · exact Or.inl rfl
      · exact Or.inr hmem

theorem sortByKeyNum_mem (l : List (String × QVal)) :
    ∀ kv ∈ sortByKeyNum l, kv ∈ l := by
  induction l with
  | nil =>
    intro kv hkv
    cases hkv
  | cons hd tl ih =>
    intro kv hkv
    simp only [sortByKeyNum] at hkv
    rcases insertByKeyNum_mem hd (sortByKeyNum tl) kv hkv with rfl | hmem
    · exact List.mem_cons_self _ _
    · exact List.mem_cons_of_mem hd (ih kv hmem)

theorem parseFieldFilterFromObject_valid (fieldName : String) (value : QVal)
    (path : List String) (node : FilterNode) (hk : (fieldName.length != 0) = true)
    (h : (parseFieldFilterFromObject fieldName value path).1 = some node) :
    validFilterNode node = true := by
  rcases value with _ | b | n | s | xs | kvs
  · cases h
  · injection h with h
    subst h
    exact hk
  · injection h with h
    subst h
    exact hk
  · injection h with h
    subst h
    exact hk
  · injection h with h
    subst h
    exact hk
  · rcases kvs with _ | ⟨⟨op, v⟩, rest⟩
    · cases h
    · rcases rest with _ | ⟨kv2, rest2⟩
      · simp only [parseFieldFilterFromObject] at h
        rcases hop : filterOperatorOfString op with _ | operator
        · rw [hop] at h
          by_cases hop2 : (op == "") = true <;> simp [hop2] at h
        · rw [hop] at h
          injection h with h
          subst h
          exact hk
      · simp only [parseFieldFilterFromObject] at h
        have hvalid : ∀ nd ∈ (collectConds (((op, v) :: kv2 :: rest2).map (fun kv =>
            match filterOperatorOfString kv.1 with
            | some operator => ((some (FilterNode.field fieldName operator kv.2) :
                Option FilterNode), ([] : List ParseError))
            | none => (none, [invalidOperatorError kv.1 path])))).1,
            validFilterNode nd = true := by
          intro nd hnd
          rcases collectConds_mem _ nd hnd with ⟨pr, hpr, hsome⟩
          rcases List.mem_map.mp hpr with ⟨kv, _, hkv2⟩
          subst hkv2
          rcases hop2 : filterOperatorOfString kv.1 with _ | operator
          · rw [hop2] at hsome
            cases hsome
          · rw [hop2] at hsome
            injection hsome with hsome
            subst hsome
            exact hk
        rcases hcoll : (collectConds (((op, v) :: kv2 :: rest2).map (fun kv =>
            match filterOperatorOfString kv.1 with
            | some operator => ((some (FilterNode.field fieldName operator kv.2) :
                Option FilterNode), ([] : List ParseError))
            | none => (none, [invalidOperatorError kv.1 path])))).1
          with _ | ⟨c1, _ | ⟨c2, restc⟩⟩ <;> rw [hcoll] at h hvalid
        · cases h
        · injection h with h
          subst h
          exact hvalid _ (List.mem_singleton.mpr rfl)
        · injection h with h
          subst h
          exact validFilterNode_logical _ _ (List.cons_ne_nil _ _) hvalid

theorem goObj_of_parts (kvs : List (String × QVal))
    (h : ∀ kv ∈ kvs, (kv.1.length != 0) = true ∧ qvalKeysNonempty kv.2 = true) :
    qvalKeysNonempty.goObj kvs = true := by
  induction kvs with
  | nil => rfl
  | cons kv rest ih =>
    simp only [qvalKeysNonempty.goObj, Bool.and_eq_true]
    refine ⟨⟨(h kv (List.mem_cons_self kv rest)).1, (h kv (List.mem_cons_self kv rest)).2⟩, ?_⟩
    exact ih (fun x hx => h x (List.mem_cons_of_mem kv hx))

theorem collectConds_all_valid (results : List (Option FilterNode × List ParseError))
    (h : ∀ pr ∈ results, ∀ nd, pr.1 = some nd → validFilterNode nd = true) :
    ∀ nd ∈ (collectConds results).1, validFilterNode nd = true := by
  intro nd hnd
  rcases collectConds_mem results nd hnd with ⟨pr, hpr, hsome⟩
  exact h pr hpr nd hsome

theorem parseF_valid (fuel : Nat) :
    (∀ v path node, qvalKeysNonempty v = true →
      (parseFilterF fuel v path).1 = some node → validFilterNode node = true) ∧
    (∀ kvs path node, qvalKeysNonempty.goObj kvs = true →
      (parseKeyedF fuel kvs path).1 = some node → validFilterNode node = true) ∧
    (∀ lop v path node, qvalKeysNonempty v = true →
      (parseLogicalFilterF fuel lop v path).1 = some node → validFilterNode node = true) := by
  induction fuel using Nat.strong_induction_on with
  | _ fuel ih =>
    rcases fuel with _ | f
    · exact ⟨fun v path node _ h => Option.noConfusion h,
        fun kvs path node _ h => Option.noConfusion h,
        fun lop v path node _ h => Option.noConfusion h⟩
    · have ihf := ih f (Nat.lt_succ_self f)
      refine ⟨?_, ?_, ?_⟩
      · intro v path node hkeys h
        rcases v with _ | b | n | s | xs | kvs
        · exact Option.noConfusion h
        · exact Option.noConfusion h
        · exact Option.noConfusion h
        · exact Option.noConfusion h
        · refine ihf.2.1 (jsArrayKeyed xs) path node ?_ h
          refine goObj_of_parts _ ?_
          intro kv hkv
          rcases jsArrayKeyed_sub xs kv hkv with ⟨h1, h2⟩
          exact ⟨h1, goArr_mem xs hkeys kv.2 h2⟩
        · exact ihf.2.1 kvs path node hkeys h
      · intro kvs path node hkeys h
        rcases kvs with _ | ⟨⟨k, v⟩, rest⟩
        · exact Option.noConfusion h
        · rcases rest with _ | ⟨kv2, rest2⟩
          · have hparts := goObj_mem _ hkeys (k, v) (List.mem_cons_self _ _)
            simp only [parseKeyedF] at h
            rcases hlog : logicalOperatorOfString k with _ | lop
            · rw [hlog] at h
              by_cases hke : (k == "") = true
              · simp [hke] at h
              · simp only [hke, Bool.false_eq_true, if_false] at h
                exact parseFieldFilterFromObject_valid k v (path ++ [k]) node hparts.1 h
            · rw [hlog] at h
              exact ihf.2.2 lop v (path ++ [k]) node hparts.2 h
          · simp only [parseKeyedF] at h
            have hvalid := collectConds_all_valid (((k, v) :: kv2 :: rest2).map (fun kv =>
                match logicalOperatorOfString kv.1 with
                | some lop => parseLogicalFilterF f lop kv.2 (path ++ [kv.1])
                | none => parseFieldFilterFromObject kv.1 kv.2 (path ++ [kv.1])))
              (by
                intro pr hpr nd hsome
                rcases List.mem_map.mp hpr with ⟨kv, hkv, hkv2⟩
                subst hkv2
                have hp := goObj_mem _ hkeys kv hkv
                rcases hlog : logicalOperatorOfString kv.1 with _ | lop
                · rw [hlog] at hsome
                  exact parseFieldFilterFromObject_valid kv.1 kv.2 (path ++ [kv.1]) nd hp.1 hsome
                · rw [hlog] at hsome
                  exact ihf.2.2 lop kv.2 (path ++ [kv.1]) nd hp.2 hsome)
            rcases hcoll : (collectConds (((k, v) :: kv2 :: rest2).map (fun kv =>
                match logicalOperatorOfString kv.1 with
                | some lop => parseLogicalFilterF f lop kv.2 (path ++ [kv.1])
                | none => parseFieldFilterFromObject kv.1 kv.2 (path ++ [kv.1])))).1
              with _ | ⟨c1, _ | ⟨c2, restc⟩⟩ <;> rw [hcoll] at h hvalid
            · cases h
            · injection h with h
              subst h
              exact hvalid _ (List.mem_singleton.mpr rfl)
            · injection h with h
              subst h
              exact validFilterNode_logical _ _ (List.cons_ne_nil _ _) hvalid
      · intro lop v path node hkeys h
        rcases v with _ | b | n | s | xs | kvs
        · exact Option.noConfusion h
        · exact Option.noConfusion h
        · exact Option.noConfusion h
        · exact Option.noConfusion h
        · simp only [parseLogicalFilterF] at h
          have hvalid := collectConds_all_valid ((jsArrayKeyed xs).map (fun kv =>
              parseFilterF f kv.2 (path ++ [kv.1])))
            (by
              intro pr hpr nd hsome
              rcases List.mem_map.mp hpr with ⟨kv, hkv, hkv2⟩
              subst hkv2
              rcases jsArrayKeyed_sub xs kv hkv with ⟨_, h2⟩
              exact ihf.1 kv.2 (path ++ [kv.1]) nd (goArr_mem xs hkeys kv.2 h2) hsome)
          rcases hcoll : (collectConds ((jsArrayKeyed xs).map (fun kv =>
              parseFilterF f kv.2 (path ++ [kv.1])))).1
            with _ | ⟨c1, restc⟩ <;> rw [hcoll] at h hvalid
          · cases h
          · injection h with h
            subst h
            exact validFilterNode_logical _ _ (List.cons_ne_nil _ _) hvalid
        · simp only [parseLogicalFilterF] at h
          by_cases harr : ((kvs.map (fun kv => kv.1)).all isNumericKey &&
              decide (0 < (kvs.map (fun kv => kv.1)).length)) = true
          · rw [if_pos harr] at h
            have hvalid := collectConds_all_valid ((sortByKeyNum kvs).map (fun kv =>
                parseFilterF f kv.2 (path ++ [kv.1])))
              (by
                intro pr hpr nd hsome
                rcases List.mem_map.mp hpr with ⟨kv, hkv, hkv2⟩
                subst hkv2
                have hp := goObj_mem _ hkeys kv (sortByKeyNum_mem kvs kv hkv)
                exact ihf.1 kv.2 (path ++ [kv.1]) nd hp.2 hsome)
            rcases hcoll : (collectConds ((sortByKeyNum kvs).map (fun kv =>
                parseFilterF f kv.2 (path ++ [kv.1])))).1
              with _ | ⟨c1, restc⟩ <;> rw [hcoll] at h hvalid
            · cases h
            · injection h with h
              subst h
              exact validFilterNode_logical _ _ (List.cons_ne_nil _ _) hvalid
          · rw [if_neg harr] at h
            rcases hp : (parseFilterF f (.vobj kvs) path).1 with _ | c
            · rw [hp] at h
              cases h
            · rw [hp] at h
              injection h with h
              subst h
              refine validFilterNode_logical _ _ (List.cons_ne_nil _ _) ?_
              intro c2 hc2
              rcases List.mem_singleton.mp hc2 with rfl
              exact ihf.1 (.vobj kvs) path c2 hkeys hp

/-! ## C7: invariants of parsed filter trees -/

/-- Counterexample to C7 as stated: the filter input with keys "" and
"a" (both mapping to valid operator objects) parses to a non-null AST
whose filter contains a FieldFilter with an empty field name, violating
the claimed non-empty-field invariant. -/
theorem C7_parse_invariants_counterexample :
    (parse { fields := none, page := .undef, limit := .undef, sort := none,
             filter := some (.vobj [("", .vobj [("eq", .vstr "x")]),
                                    ("a", .vobj [("eq", .vstr "y")])]) }).ast =
      some { fields := none, pagination := { offset := 0, limit := 10 }, sort := [],
             filter := some (.logical .and [.field "" .eq (.vstr "x"),
                                            .field "a" .eq (.vstr "y")]) } ∧
    filterInvariantHolds (some (.logical .and [.field "" .eq (.vstr "x"),
                                               .field "a" .eq (.vstr "y")])) = false :=
  ⟨rfl, rfl⟩

/-- Claim C7 (amended): when every object key of the filter input is
non-empty, every non-null AST returned by parse satisfies the
data-model invariants of its filter tree: each FieldFilter has a
non-empty field name and an operator of the closed enumeration (and a
present value, by typing), and each LogicalFilter has a non-empty
conditions array, recursively valid. -/
theorem C7_parse_invariants_amended (input : QueryInput) (ast : QueryAST)
    (hkeys : qvalKeysNonemptyOpt input.filter = true)
    (hast : (parse input).ast = some ast) :
    filterInvariantHolds ast.filter = true := by
  simp only [parse] at hast
  split at hast
  · cases hast
  · injection hast with hast
    subst hast
    rcases hfil : input.filter with _ | v
    · simp [hfil, filterInvariantHolds]
    · simp only [hfil]
      rcases hres : (parseFilter v).1 with _ | node
      · simp [filterInvariantHolds, hres]
      · simp only [filterInvariantHolds, hres]
        rw [hfil] at hkeys
        exact (parseF_valid (qvalFuel v)).1 v ["filter"] node hkeys hres

/-- Witness for the amended C7 at the filter input status/eq/active. -/
theorem C7_parse_invariants_amended_witness :
    filterInvariantHolds (some (.field "status" .eq (.vstr "active"))) = true :=
  C7_parse_invariants_amended
    { fields := none, page := .undef, limit := .undef, sort := none,
      filter := some (.vobj [("status", .vobj [("eq", .vstr "active")])]) }
    { fields := none, pagination := { offset := 0, limit := 10 }, sort := [],
      filter := some (.field "status" .eq (.vstr "active")) }
    rfl rfl

/-! ## String lemmas for C2 -/

theorem dropWhile_eq_self_of_all {p : Char → Bool} {l : List Char}
    (h : ∀ c ∈ l, p c = false) : l.dropWhile p = l := by
  cases l with
  | nil => rfl
  | cons c cs =>
    rw [List.dropWhile_cons, h c (List.mem_cons_self c cs)]
    simp

theorem jsTrim_eq_self_of_all {s : String} (h : ∀ c ∈ s.toList, isWsChar c = false) :
    jsTrim s = s := by
  unfold jsTrim
  rw [dropWhile_eq_self_of_all h]
  rw [dropWhile_eq_self_of_all (fun c hc => h c (List.mem_reverse.mp hc))]
  rw [List.reverse_reverse]
  rfl

theorem toList_append (s t : String) : (s ++ t).toList = s.toList ++ t.toList := rfl

theorem asString_toList (s : String) : s.toList.asString = s := rfl

theorem toList_asString (l : List Char) : l.asString.toList = l := rfl

theorem toList_eq_nil_iff (s : String) : s.toList = [] ↔ s = "" := by
  constructor
  · intro h
    have := congrArg List.asString h
    rw [asString_toList] at this
    exact this
  · intro h
    rw [h]
    rfl

theorem splitCharAux_cons_self (sep : Char) (cs acc : List Char) :
    splitCharAux sep (sep :: cs) acc = acc.reverse.asString :: splitCharAux sep cs [] := by
  simp [splitCharAux]

theorem splitCharAux_cons_ne (sep c : Char) (h : ¬(c = sep)) (cs acc : List Char) :
    splitCharAux sep (c :: cs) acc = splitCharAux sep cs (c :: acc) := by
  rw [splitCharAux, if_neg h]

theorem splitCharAux_no_sep (sep : Char) :
    ∀ (xs : List Char) (acc : List Char), (∀ c ∈ xs, (c = sep) = False) →
      splitCharAux sep xs acc = [(acc.reverse ++ xs).asString] := by
  intro xs
  induction xs with
  | nil =>
    intro acc h
    simp [splitCharAux]
  | cons c cs ih =>
    intro acc h
    rw [splitCharAux_cons_ne sep c (by
      intro hc
      exact absurd (h c (List.mem_cons_self c cs)) (by simp [hc]))]
    rw [ih (c :: acc) (fun d hd => h d (List.mem_cons_of_mem c hd))]
    simp

theorem splitCharAux_append_sep (sep : Char) :
    ∀ (xs ys : List Char) (acc : List Char),
      splitCharAux sep (xs ++ sep :: ys) acc =
        splitCharAux sep xs acc ++ splitCharAux sep ys [] := by
  intro xs
  induction xs with
  | nil =>
    intro ys acc
    rw [List.nil_append, splitCharAux_cons_self]
    rfl
  | cons c cs ih =>
    intro ys acc
    by_cases hc : c = sep
    · subst hc
      rw [List.cons_append, splitCharAux_cons_self, splitCharAux_cons_self]
      rw [ih ys []]
      rfl
    · rw [List.cons_append, splitCharAux_cons_ne sep c hc, splitCharAux_cons_ne sep c hc]
      exact ih ys (c :: acc)

theorem splitCharAux_ne_nil (sep : Char) :
    ∀ (xs : List Char) (acc : List Char), splitCharAux sep xs acc ≠ [] := by
  intro xs
  induction xs with
  | nil =>
    intro acc
    exact List.cons_ne_nil _ _
  | cons c cs ih =>
    intro acc
    by_cases hc : c = sep
    · subst hc
      rw [splitCharAux_cons_self]
      exact List.cons_ne_nil _ _
    · rw [splitCharAux_cons_ne sep c hc]
      exact ih (c :: acc)

theorem asString_append (l1 l2 : List Char) :
    l1.asString ++ l2.asString = (l1 ++ l2).asString := rfl

theorem jsSplit_jsJoin (parts : List String) (hne : parts ≠ [])
    (h : ∀ p ∈ parts, ∀ c ∈ p.toList, (c = ',') = False) :
    jsSplit ',' (jsJoin "," parts) = parts := by
  induction parts with
  | nil => exact absurd rfl hne
  | cons p rest ih =>
    rcases rest with _ | ⟨q, rest2⟩
    · show splitCharAux ',' p.toList [] = [p]
      rw [splitCharAux_no_sep ',' p.toList [] (h p (List.mem_cons_self p []))]
      rw [List.reverse_nil, List.nil_append, asString_toList]
    · show splitCharAux ',' (p ++ "," ++ jsJoin "," (q :: rest2)).toList [] = p :: q :: rest2
      have h1 : (p ++ "," ++ jsJoin "," (q :: rest2)).toList =
          p.toList ++ ',' :: (jsJoin "," (q :: rest2)).toList := by
        rw [toList_append, toList_append, List.append_assoc]
        rfl
      rw [h1, splitCharAux_append_sep]
      rw [splitCharAux_no_sep ',' p.toList [] (h p (List.mem_cons_self p _))]
      have h2 := ih (List.cons_ne_nil q rest2) (fun x hx => h x (List.mem_cons_of_mem p hx))
      show [(List.reverse [] ++ p.toList).asString] ++ jsSplit ',' (jsJoin "," (q :: rest2)) =
        p :: q :: rest2
      rw [h2, List.reverse_nil, List.nil_append, asString_toList]
      rfl

theorem jsJoin_splitCharAux (sep : Char) (sepStr : String) (hsep : sepStr.toList = [sep]) :
    ∀ (cs : List Char) (acc : List Char),
      jsJoin sepStr (splitCharAux sep cs acc) = (acc.reverse ++ cs).asString := by
  intro cs
  induction cs with
  | nil =>
    intro acc
    simp [splitCharAux, jsJoin]
  | cons c rest ih =>
    intro acc
    by_cases hc : c = sep
    · rw [hc, splitCharAux_cons_self]
      obtain ⟨y, ys, hsp⟩ : ∃ y ys, splitCharAux sep rest [] = y :: ys := by
        rcases hE : splitCharAux sep rest [] with _ | ⟨y, ys⟩
        · exact absurd hE (splitCharAux_ne_nil sep rest [])
        · exact ⟨y, ys, rfl⟩
      rw [hsp]
      have hstr : sepStr = [sep].asString := by
        rw [← hsep, asString_toList]
      show acc.reverse.asString ++ sepStr ++ jsJoin sepStr (y :: ys) =
        (acc.reverse ++ sep :: rest).asString
      rw [← hsp, ih [], hstr, asString_append, asString_append]
      congr 1
      simp
    · rw [splitCharAux_cons_ne sep c hc, ih (c :: acc)]
      simp

theorem jsJoin_jsSplit (sep : Char) (sepStr : String) (hsep : sepStr.toList = [sep])
    (s : String) : jsJoin sepStr (jsSplit sep s) = s := by
  rw [jsSplit, jsJoin_splitCharAux sep sepStr hsep]
  rw [List.reverse_nil, List.nil_append, asString_toList]

theorem splitLastColon_append (f d : String) (hd : ∀ c ∈ d.toList, (c = ':') = False) :
    splitLastColon (f ++ ":" ++ d) = some (f, d) := by
  have h1 : (f ++ ":" ++ d).toList = f.toList ++ ':' :: d.toList := by
    rw [toList_append, toList_append, List.append_assoc]
    rfl
  have h2 : jsSplit ':' (f ++ ":" ++ d) = jsSplit ':' f ++ [d] := by
    show splitCharAux ':' (f ++ ":" ++ d).toList [] = _
    rw [h1, splitCharAux_append_sep]
    rw [splitCharAux_no_sep ':' d.toList [] hd]
    rw [List.reverse_nil, List.nil_append, asString_toList]
    rfl
  obtain ⟨z, zs, hzz⟩ : ∃ z zs, (jsSplit ':' f).reverse = z :: zs := by
    rcases hE : (jsSplit ':' f).reverse with _ | ⟨z, zs⟩
    · exfalso
      have hnil : jsSplit ':' f = [] := by
        have := congrArg List.reverse hE
        rwa [List.reverse_reverse] at this
      exact splitCharAux_ne_nil ':' f.toList [] hnil
    · exact ⟨z, zs, rfl⟩
  have h3 : (jsSplit ':' (f ++ ":" ++ d)).reverse = d :: z :: zs := by
    rw [h2, List.reverse_append, hzz]
    rfl
  rw [splitLastColon, h3]
  show some (jsJoin ":" (z :: zs).reverse, d) = some (f, d)
  rw [← hzz, List.reverse_reverse, jsJoin_jsSplit ':' ":" rfl f]

theorem goodPlainName_length {s : String} (h : goodPlainName s = true) : 0 < s.length := by
  simp [goodPlainName] at h
  exact h.1

theorem goodPlainName_chars {s : String} (h : goodPlainName s = true) :
    ∀ c ∈ s.toList, isWsChar c = false ∧ (c = ',') = False := by
  simp [goodPlainName, List.all_eq_true] at h
  intro c hc
  rcases h.2 c hc with ⟨h1, h2⟩
  exact ⟨h1, eq_false h2⟩

theorem ne_empty_of_length_pos {s : String} (h : 0 < s.length) : s ≠ "" := by
  intro he
  subst he
  exact absurd h (by decide)

theorem toList_ne_nil_of_length_pos {s : String} (h : 0 < s.length) : s.toList ≠ [] := by
  intro hnil
  have hl : s.toList.length = s.length := rfl
  rw [hnil] at hl
  simp at hl
  omega

theorem beq_empty_false {s : String} (h : s ≠ "") : (s == "") = false :=
  beq_eq_false_iff_ne.mpr h

theorem map_id_of_mem {α : Type} (f : α → α) :
    ∀ (l : List α), (∀ x ∈ l, f x = x) → l.map f = l := by
  intro l
  induction l with
  | nil => intro _; rfl
  | cons x xs ih =>
    intro h
    rw [List.map_cons, h x (List.mem_cons_self x xs), ih (fun y hy => h y (List.mem_cons_of_mem x hy))]

theorem mem_toList_jsJoin (sep : String) :
    ∀ (parts : List String), ∀ c ∈ (jsJoin sep parts).toList,
      c ∈ sep.toList ∨ ∃ p ∈ parts, c ∈ p.toList := by
  intro parts
  induction parts with
  | nil =>
    intro c hc
    have hz : (jsJoin sep []).toList = [] := rfl
    rw [hz] at hc
    cases hc
  | cons p rest ih =>
    rcases rest with _ | ⟨q, rest2⟩
    · intro c hc
      exact Or.inr ⟨p, List.mem_cons_self p [], hc⟩
    · intro c hc
      rw [show jsJoin sep (p :: q :: rest2) = p ++ sep ++ jsJoin sep (q :: rest2) from rfl,
        toList_append, toList_append] at hc
      rcases List.mem_append.mp hc with h1 | h2
      · rcases List.mem_append.mp h1 with hp | hs
        · exact Or.inr ⟨p, List.mem_cons_self p _, hp⟩
        · exact Or.inl hs
      · rcases ih c h2 with hs | ⟨x, hx, hcx⟩
        · exact Or.inl hs
        · exact Or.inr ⟨x, List.mem_cons_of_mem p hx, hcx⟩

theorem jsJoin_ne_empty (sep : String) (parts : List String) (hne : parts ≠ [])
    (h : ∀ p ∈ parts, p ≠ "") : jsJoin sep parts ≠ "" := by
  rcases parts with _ | ⟨p, rest⟩
  · exact absurd rfl hne
  · rcases rest with _ | ⟨q, rest2⟩
    · exact h p (List.mem_cons_self p [])
    · intro habs
      have htl : (p ++ sep ++ jsJoin sep (q :: rest2)).toList = [] := by
        rw [show (p ++ sep ++ jsJoin sep (q :: rest2)) = jsJoin sep (p :: q :: rest2) from rfl,
          habs]
        rfl
      rw [toList_append, toList_append] at htl
      rcases List.append_eq_nil.mp htl with ⟨h1, _⟩
      rcases List.append_eq_nil.mp h1 with ⟨h2, _⟩
      exact h p (List.mem_cons_self p _) ((toList_eq_nil_iff p).mp h2)

theorem parseFields_printFields (fs : List String) (hne : fs ≠ [])
    (hg : ∀ f ∈ fs, goodPlainName f = true) :
    parseFields (printFields (some fs)) = some fs := by
  have hpf : printFields (some fs) = some (jsJoin "," fs) := by
    simp only [printFields]
    rw [if_neg (by simp [List.isEmpty_iff, hne])]
  have hjoin_ne : jsJoin "," fs ≠ "" :=
    jsJoin_ne_empty "," fs hne
      (fun p hp => ne_empty_of_length_pos (goodPlainName_length (hg p hp)))
  have hjoin_ws : ∀ c ∈ (jsJoin "," fs).toList, isWsChar c = false := by
    intro c hc
    rcases mem_toList_jsJoin "," fs c hc with hs | ⟨p, hp, hcp⟩
    · have : c = ',' := by
        have hone : ("," : String).toList = [','] := rfl
        rw [hone] at hs
        simpa using hs
      rw [this]
      rfl
    · exact (goodPlainName_chars (hg p hp) c hcp).1
  have htrim : jsTrim (jsJoin "," fs) = jsJoin "," fs := jsTrim_eq_self_of_all hjoin_ws
  have hsplit : jsSplit ',' (jsJoin "," fs) = fs :=
    jsSplit_jsJoin fs hne (fun p hp c hc => (goodPlainName_chars (hg p hp) c hc).2)
  have hmap : fs.map jsTrim = fs :=
    map_id_of_mem jsTrim fs
      (fun f hf => jsTrim_eq_self_of_all (fun c hc => (goodPlainName_chars (hg f hf) c hc).1))
  have hfilter : fs.filter (fun f => decide (0 < f.length)) = fs :=
    List.filter_eq_self.mpr (fun f hf => by
      simp only [decide_eq_true_eq]
      exact goodPlainName_length (hg f hf))
  rw [hpf]
  simp only [parseFields, beq_empty_false hjoin_ne, htrim, hsplit, hmap, hfilter,
    Bool.false_eq_true, if_false, decide_eq_true_eq]
  rw [if_pos (List.length_pos.mpr hne)]

theorem dirname_chars (d : SortDirection) :
    ∀ c ∈ d.name.toList, isWsChar c = false ∧ (c = ',') = False ∧ (c = ':') = False := by
  cases d <;> decide

theorem sortToken_toList (sp : SortSpec) :
    (sp.field ++ ":" ++ sp.direction.name).toList =
      sp.field.toList ++ ':' :: sp.direction.name.toList := by
  rw [toList_append, toList_append, List.append_assoc]
  rfl

theorem sortToken_chars (sp : SortSpec) (hg : goodPlainName sp.field = true) :
    ∀ c ∈ (sp.field ++ ":" ++ sp.direction.name).toList,
      isWsChar c = false ∧ (c = ',') = False := by
  intro c hc
  rw [sortToken_toList] at hc
  rcases List.mem_append.mp hc with h1 | h2
  · exact (goodPlainName_chars hg c h1).symm.symm
  · cases h2 with
    | head => exact ⟨rfl, by decide⟩
    | tail _ h =>
      exact ⟨(dirname_chars sp.direction c h).1, (dirname_chars sp.direction c h).2.1⟩

theorem sortToken_ne_empty (sp : SortSpec) :
    (sp.field ++ ":" ++ sp.direction.name) ≠ "" := by
  intro habs
  have h := congrArg String.toList habs
  rw [sortToken_toList] at h
  simp at h

theorem parseSortToken_roundtrip (sp : SortSpec) (hg : goodPlainName sp.field = true) :
    parseSortToken (sp.field ++ ":" ++ sp.direction.name) = some sp := by
  have htrim : jsTrim (sp.field ++ ":" ++ sp.direction.name) =
      sp.field ++ ":" ++ sp.direction.name :=
    jsTrim_eq_self_of_all (fun c hc => (sortToken_chars sp hg c hc).1)
  have hne := sortToken_ne_empty sp
  have hsplit : splitLastColon (sp.field ++ ":" ++ sp.direction.name) =
      some (sp.field, sp.direction.name) :=
    splitLastColon_append sp.field sp.direction.name
      (fun c hc => (dirname_chars sp.direction c hc).2.2)
  have htrimf : jsTrim sp.field = sp.field :=
    jsTrim_eq_self_of_all (fun c hc => (goodPlainName_chars hg c hc).1)
  have htrimd : jsTrim sp.direction.name = sp.direction.name :=
    jsTrim_eq_self_of_all (fun c hc => (dirname_chars sp.direction c hc).1)
  have hlower : jsToLower sp.direction.name = sp.direction.name := by
    cases sp.direction <;> rfl
  have hdir : sortDirectionOfString sp.direction.name = some sp.direction := by
    cases sp.direction <;> rfl
  simp only [parseSortToken, htrim, beq_empty_false hne, Bool.false_eq_true, if_false, hsplit,
    htrimf, htrimd, hlower, hdir, decide_eq_true_eq]
  rw [if_pos (goodPlainName_length hg)]

theorem filterMap_sortTokens :
    ∀ (l : List SortSpec), (∀ s ∈ l, goodPlainName s.field = true) →
      (l.map (fun s => s.field ++ ":" ++ s.direction.name)).filterMap parseSortToken = l := by
  intro l
  induction l with
  | nil => intro _; rfl
  | cons s rest ih =>
    intro h
    rw [List.map_cons, List.filterMap_cons,
      parseSortToken_roundtrip s (h s (List.mem_cons_self s rest)),
      ih (fun x hx => h x (List.mem_cons_of_mem s hx))]

theorem parseSort_printSort (sorts : List SortSpec)
    (hg : ∀ s ∈ sorts, goodPlainName s.field = true) :
    parseSort (printSort sorts) = sorts := by
  rcases sorts with _ | ⟨s0, rest⟩
  · rfl
  · have hps : printSort (s0 :: rest) =
        some (jsJoin "," ((s0 :: rest).map (fun s => s.field ++ ":" ++ s.direction.name))) := by
      simp only [printSort]
      rw [if_neg (by simp)]
    have hpg : ∀ p ∈ (s0 :: rest).map (fun s => s.field ++ ":" ++ s.direction.name),
        ∀ c ∈ p.toList, isWsChar c = false ∧ (c = ',') = False := by
      intro p hp c hc
      rcases List.mem_map.mp hp with ⟨sp, hsp, rfl⟩
      exact sortToken_chars sp (hg sp hsp) c hc
    have hpne : (s0 :: rest).map (fun s => s.field ++ ":" ++ s.direction.name) ≠ [] := by
      simp
    have hjne : jsJoin "," ((s0 :: rest).map (fun s => s.field ++ ":" ++ s.direction.name)) ≠ "" :=
      jsJoin_ne_empty "," _ hpne (by
        intro p hp
        rcases List.mem_map.mp hp with ⟨sp, _, rfl⟩
        exact sortToken_ne_empty sp)
    have hjws : ∀ c ∈ (jsJoin ","
        ((s0 :: rest).map (fun s => s.field ++ ":" ++ s.direction.name))).toList,
        isWsChar c = false := by
      intro c hc
      rcases mem_toList_jsJoin "," _ c hc with hs | ⟨p, hp, hcp⟩
      · have hone : ("," : String).toList = [','] := rfl
        rw [hone] at hs
        have : c = ',' := by simpa using hs
        rw [this]
        rfl
      · exact (hpg p hp c hcp).1
    have htrim := jsTrim_eq_self_of_all hjws
    have hsplit : jsSplit ','
        (jsJoin "," ((s0 :: rest).map (fun s => s.field ++ ":" ++ s.direction.name))) =
        (s0 :: rest).map (fun s => s.field ++ ":" ++ s.direction.name) :=
      jsSplit_jsJoin _ hpne (fun p hp c hc => (hpg p hp c hc).2)
    rw [hps]
    simp only [parseSort, beq_empty_false hjne, Bool.false_eq_true, if_false, htrim, hsplit]
    exact filterMap_sortTokens (s0 :: rest) hg

theorem parsePagination_printed (off lim : Nat) (hl : 0 < lim) :
    parsePagination (.num ((off / lim + 1 : Nat) : Int)) (.num ((lim : Nat) : Int)) =
      { offset := off / lim * lim, limit := lim } := by
  simp only [parsePagination]
  rw [if_pos (show (0 : Int) < ((lim : Nat) : Int) by exact_mod_cast hl)]
  rw [if_pos (show (0 : Int) < ((off / lim + 1 : Nat) : Int) by
    exact_mod_cast Nat.succ_pos (off / lim))]
  simp only [Int.toNat_natCast, Nat.add_sub_cancel]

theorem validGo_mem (cs : List FilterNode) (h : validFilterNode.go cs = true) :
    ∀ c ∈ cs, validFilterNode c = true := by
  induction cs with
  | nil =>
    intro c hc
    cases hc
  | cons c0 rest ih =>
    intro c hc
    simp only [validFilterNode.go, Bool.and_eq_true] at h
    rcases List.mem_cons.mp hc with rfl | hm
    · exact h.1
    · exact ih h.2 c hm

theorem goodGo_mem (cs : List FilterNode) (h : goodFilterTree.go cs = true) :
    ∀ c ∈ cs, goodFilterTree c = true := by
  induction cs with
  | nil =>
    intro c hc
    cases hc
  | cons c0 rest ih =>
    intro c hc
    simp only [goodFilterTree.go, Bool.and_eq_true] at h
    rcases List.mem_cons.mp hc with rfl | hm
    · exact h.1
    · exact ih h.2 c hm

theorem printGo_forall : ∀ (cs : List FilterNode), (∀ c ∈ cs, ∃ q, printFilter c = some q) →
    List.Forall₂ (fun c q => printFilter c = some q) cs (printFilter.go cs) := by
  intro cs
  induction cs with
  | nil => intro _; exact List.Forall₂.nil
  | cons c rest ih =>
    intro h
    obtain ⟨q, hq⟩ := h c (List.mem_cons_self c rest)
    rw [show printFilter.go (c :: rest) =
      (match printFilter c with
       | some q => q :: printFilter.go rest
       | none => printFilter.go rest) from rfl, hq]
    exact List.Forall₂.cons hq (ih (fun x hx => h x (List.mem_cons_of_mem c hx)))

theorem printFilter_some_of_valid :
    ∀ n, validFilterNode n = true → ∃ q, printFilter n = some q := by
  refine filterNodeInd ?_ ?_
  · intro f op v _
    exact ⟨_, rfl⟩
  · intro lop cs ihm hv
    simp only [validFilterNode, Bool.and_eq_true] at hv
    have hmem := validGo_mem cs hv.2
    rcases cs with _ | ⟨c0, rest⟩
    · exact absurd hv.1 (by simp)
    · obtain ⟨q0, hq0⟩ :=
        ihm c0 (List.mem_cons_self c0 rest) (hmem c0 (List.mem_cons_self c0 rest))
      have hgo : printFilter.go (c0 :: rest) = q0 :: printFilter.go rest := by
        rw [show printFilter.go (c0 :: rest) =
          (match printFilter c0 with
           | some q => q :: printFilter.go rest
           | none => printFilter.go rest) from rfl, hq0]
      refine ⟨QVal.vobj [(lop.name, QVal.varr (printFilter.go (c0 :: rest)))], ?_⟩
      simp only [printFilter]
      rw [hgo]
      rfl

theorem qvalSize_goArr_mem {x : QVal} : ∀ {xs : List QVal}, x ∈ xs →
    qvalSize x + 1 ≤ qvalSize.goArr xs := by
  intro xs
  induction xs with
  | nil =>
    intro h
    cases h
  | cons y ys ih =>
    intro h
    rw [show qvalSize.goArr (y :: ys) = 1 + qvalSize y + qvalSize.goArr ys from rfl]
    rcases List.mem_cons.mp h with rfl | hm
    · omega
    · have := ih hm
      omega

theorem logicalOperatorOfString_name (lop : LogicalOperator) :
    logicalOperatorOfString lop.name = some lop := by
  cases lop <;> rfl

theorem filterOperatorOfString_name (op : FilterOperator) :
    filterOperatorOfString op.name = some op := by
  cases op <;> rfl

theorem parseFilterF_printFilter :
    ∀ fuel : Nat, ∀ node q path, validFilterNode node = true → goodFilterTree node = true →
      printFilter node = some q → qvalSize q < fuel →
      parseFilterF fuel q path = (some node, []) := by
  intro fuel
  induction fuel using Nat.strong_induction_on with
  | _ fuel ih =>
    intro node q path hv hg hp hsz
    cases node with
    | field f op v =>
      have hq : QVal.vobj [(f, QVal.vobj [(op.name, v)])] = q := by
        simpa only [printFilter, Option.some.injEq] using hp
      subst hq
      have hszeq : qvalSize (QVal.vobj [(f, QVal.vobj [(op.name, v)])]) =
          1 + (1 + (1 + (1 + qvalSize v + 0)) + 0) := rfl
      obtain ⟨f2, rfl⟩ : ∃ f2, fuel = f2 + 2 := ⟨fuel - 2, by omega⟩
      have hgn : logicalOperatorOfString f = none := by
        simp only [goodFilterTree] at hg
        exact Option.isNone_iff_eq_none.mp hg
      have hfpos : 0 < f.length := by
        simp only [validFilterNode, bne_iff_ne, ne_eq] at hv
        omega
      have hfne : (f == "") = false := beq_empty_false (ne_empty_of_length_pos hfpos)
      rw [show parseFilterF (f2 + 2) (QVal.vobj [(f, QVal.vobj [(op.name, v)])]) path =
          parseKeyedF (f2 + 1) [(f, QVal.vobj [(op.name, v)])] path from rfl]
      rw [show parseKeyedF (f2 + 1) [(f, QVal.vobj [(op.name, v)])] path =
          (match logicalOperatorOfString f with
           | some lop => parseLogicalFilterF f2 lop (QVal.vobj [(op.name, v)]) (path ++ [f])
           | none =>
             if f == "" then (none, [])
             else parseFieldFilterFromObject f (QVal.vobj [(op.name, v)]) (path ++ [f]))
          from rfl]
      rw [hgn]
      show (if f == "" then (none, [])
            else parseFieldFilterFromObject f (QVal.vobj [(op.name, v)]) (path ++ [f])) =
        (some (FilterNode.field f op v), [])
      rw [hfne]
      simp only [Bool.false_eq_true, if_false]
      simp only [parseFieldFilterFromObject, filterOperatorOfString_name]
    | logical lop cs =>
      simp only [validFilterNode, Bool.and_eq_true] at hv
      simp only [goodFilterTree] at hg
      have hmemv := validGo_mem cs hv.2
      have hmemg := goodGo_mem cs hg
      have hfa := printGo_forall cs
        (fun c hc => printFilter_some_of_valid c (hmemv c hc))
      rcases cs with _ | ⟨c0, crest⟩
      · exact absurd hv.1 (by simp)
      · obtain ⟨q0, hq0⟩ :=
          printFilter_some_of_valid c0 (hmemv c0 (List.mem_cons_self c0 crest))
        have hgo : printFilter.go (c0 :: crest) = q0 :: printFilter.go crest := by
          rw [show printFilter.go (c0 :: crest) =
            (match printFilter c0 with
             | some q => q :: printFilter.go crest
             | none => printFilter.go crest) from rfl, hq0]
        have hq : QVal.vobj [(lop.name, QVal.varr (printFilter.go (c0 :: crest)))] = q := by
          simp only [printFilter] at hp
          rw [hgo] at hp
          rw [if_neg (by simp)] at hp
          rw [hgo]
          exact Option.some.inj hp
        subst hq
        have hszeq : qvalSize
            (QVal.vobj [(lop.name, QVal.varr (printFilter.go (c0 :: crest)))]) =
            1 + (1 + (1 + qvalSize.goArr (printFilter.go (c0 :: crest))) + 0) := rfl
        obtain ⟨f2, rfl⟩ : ∃ f2, fuel = f2 + 3 := ⟨fuel - 3, by omega⟩
        have hsizes : ∀ x ∈ printFilter.go (c0 :: crest), qvalSize x < f2 := by
          intro x hx
          have h1 := qvalSize_goArr_mem hx
          omega
        have key : ∀ (cs2 : List FilterNode) (qs : List QVal),
            List.Forall₂ (fun c q => printFilter c = some q) cs2 qs →
            (∀ c ∈ cs2, validFilterNode c = true) →
            (∀ c ∈ cs2, goodFilterTree c = true) →
            (∀ x ∈ qs, qvalSize x < f2) →
            ∀ (i : Nat) (path2 : List String),
              collectConds ((qs.enumFrom i).map
                (fun p => parseFilterF f2 p.2 (path2 ++ [toString p.1]))) = (cs2, []) := by
          intro cs2 qs hfa2
          induction hfa2 with
          | nil =>
            intro _ _ _ i path2
            rfl
          | @cons a b l1 l2 hab htail ih2 =>
            intro hval hgood hsz2 i path2
            rw [show (b :: l2).enumFrom i = (i, b) :: l2.enumFrom (i + 1) from rfl,
              List.map_cons]
            have hhead : parseFilterF f2 b (path2 ++ [toString i]) = (some a, []) :=
              ih f2 (by omega) a b (path2 ++ [toString i])
                (hval a (List.mem_cons_self a l1))
                (hgood a (List.mem_cons_self a l1)) hab
                (hsz2 b (List.mem_cons_self b l2))
            rw [hhead]
            simp only [collectConds]
            rw [ih2 (fun c hc => hval c (List.mem_cons_of_mem a hc))
              (fun c hc => hgood c (List.mem_cons_of_mem a hc))
              (fun x hx => hsz2 x (List.mem_cons_of_mem b hx)) (i + 1) path2]
            rfl
        have hres : (jsArrayKeyed (printFilter.go (c0 :: crest))).map
            (fun kv => parseFilterF f2 kv.2 ((path ++ [lop.name]) ++ [kv.1])) =
            ((printFilter.go (c0 :: crest)).enumFrom 0).map
              (fun p => parseFilterF f2 p.2 ((path ++ [lop.name]) ++ [toString p.1])) := by
          simp only [jsArrayKeyed, List.map_map]
          rfl
        have hcoll : collectConds ((jsArrayKeyed (printFilter.go (c0 :: crest))).map
            (fun kv => parseFilterF f2 kv.2 ((path ++ [lop.name]) ++ [kv.1]))) =
            (c0 :: crest, []) := by
          rw [hres]
          exact key (c0 :: crest) (printFilter.go (c0 :: crest)) hfa hmemv hmemg hsizes 0
            (path ++ [lop.name])
        rw [show parseFilterF (f2 + 3)
            (QVal.vobj [(lop.name, QVal.varr (printFilter.go (c0 :: crest)))]) path =
            parseKeyedF (f2 + 2) [(lop.name, QVal.varr (printFilter.go (c0 :: crest)))] path
          from rfl]
        rw [show parseKeyedF (f2 + 2)
            [(lop.name, QVal.varr (printFilter.go (c0 :: crest)))] path =
            (match logicalOperatorOfString lop.name with
             | some l => parseLogicalFilterF (f2 + 1) l
                 (QVal.varr (printFilter.go (c0 :: crest))) (path ++ [lop.name])
             | none =>
               if lop.name == "" then (none, [])
               else parseFieldFilterFromObject lop.name
                 (QVal.varr (printFilter.go (c0 :: crest))) (path ++ [lop.name]))
          from rfl]
        rw [logicalOperatorOfString_name]
        show parseLogicalFilterF (f2 + 1) lop
          (QVal.varr (printFilter.go (c0 :: crest))) (path ++ [lop.name]) =
          (some (FilterNode.logical lop (c0 :: crest)), [])
        rw [show parseLogicalFilterF (f2 + 1) lop
            (QVal.varr (printFilter.go (c0 :: crest))) (path ++ [lop.name]) =
            (match (collectConds ((jsArrayKeyed (printFilter.go (c0 :: crest))).map
                (fun kv => parseFilterF f2 kv.2 ((path ++ [lop.name]) ++ [kv.1])))).1 with
             | [] => (none, (collectConds ((jsArrayKeyed (printFilter.go (c0 :: crest))).map
                 (fun kv => parseFilterF f2 kv.2 ((path ++ [lop.name]) ++ [kv.1])))).2)
             | _ => (some (FilterNode.logical lop
                 (collectConds ((jsArrayKeyed (printFilter.go (c0 :: crest))).map
                   (fun kv => parseFilterF f2 kv.2 ((path ++ [lop.name]) ++ [kv.1])))).1),
                 (collectConds ((jsArrayKeyed (printFilter.go (c0 :: crest))).map
                   (fun kv => parseFilterF f2 kv.2 ((path ++ [lop.name]) ++ [kv.1])))).2))
          from rfl]
        rw [hcoll]

theorem parseFilter_printFilter (node : FilterNode) (q : QVal)
    (hv : validFilterNode node = true) (hg : goodFilterTree node = true)
    (hp : printFilter node = some q) :
    parseFilter q = (some node, []) := by
  refine parseFilterF_printFilter (qvalFuel q) node q ["filter"] hv hg hp ?_
  simp only [qvalFuel]
  omega

/-- C2: the round-trip claim as stated is false: printFields joins the
selected fields with commas, so a field name containing a comma is split
back into two fields by parse; the valid AST with fields ["a,b"] reparses
to fields ["a", "b"] ≠ ["a,b"]. -/
theorem C2_roundtrip_counterexample :
    validQueryAST { fields := some ["a,b"], pagination := { offset := 0, limit := 10 },
                    sort := [], filter := none } = true ∧
    (reparse { fields := some ["a,b"], pagination := { offset := 0, limit := 10 },
               sort := [], filter := none }).ast =
      some { fields := some ["a", "b"], pagination := { offset := 0, limit := 10 },
             sort := [], filter := none } ∧
    (["a", "b"] : List String) ≠ ["a,b"] :=
  ⟨rfl, rfl, by decide⟩

/-- C2 (amended): for every valid QueryAST whose field and sort names are
identifier-like (non-empty, free of commas and whitespace) and whose filter
field names do not collide with a logical operator keyword, parse(print(ast))
succeeds with no errors and reproduces fields, sort, and filter exactly,
and a pagination with the original limit and offset equal to
(page − 1) × limit for page = floor(originalOffset / limit) + 1. -/
theorem C2_roundtrip_amended (ast : QueryAST)
    (hv : validQueryAST ast = true)
    (hf : goodFieldList ast.fields = true)
    (hs : goodSortList ast.sort = true)
    (hfil : goodFilterOpt ast.filter = true) :
    (reparse ast).ast =
      some { fields := ast.fields,
             pagination :=
               { offset := ast.pagination.offset / ast.pagination.limit * ast.pagination.limit,
                 limit := ast.pagination.limit },
             sort := ast.sort,
             filter := ast.filter } ∧
    (reparse ast).errors = [] := by
  have hPfields : (print ast).fields = printFields ast.fields := rfl
  have hPsort : (print ast).sort = printSort ast.sort := rfl
  have hPpage : (print ast).page = ast.pagination.offset / ast.pagination.limit + 1 := rfl
  have hPlimit : (print ast).limit = ast.pagination.limit := rfl
  simp only [validQueryAST, Bool.and_eq_true] at hv
  obtain ⟨⟨⟨hvf, hvl⟩, hvs⟩, hvfil⟩ := hv
  have hlim : 0 < ast.pagination.limit := of_decide_eq_true hvl
  have hfields : parseFields (print ast).fields = ast.fields := by
    rw [hPfields]
    rcases hF : ast.fields with _ | fs
    · rfl
    · rw [hF] at hf
      simp only [goodFieldList, Bool.and_eq_true] at hf
      obtain ⟨h1, h2⟩ := hf
      exact parseFields_printFields fs (by simpa using h1) (List.all_eq_true.mp h2)
  have hsort : parseSort (print ast).sort = ast.sort := by
    rw [hPsort]
    refine parseSort_printSort ast.sort ?_
    simp only [goodSortList, List.all_eq_true] at hs
    exact hs
  have hpag : parsePagination (.num ((print ast).page : Int))
      (.num ((print ast).limit : Int)) =
      { offset := ast.pagination.offset / ast.pagination.limit * ast.pagination.limit,
        limit := ast.pagination.limit } := by
    rw [hPpage, hPlimit]
    exact parsePagination_printed ast.pagination.offset ast.pagination.limit hlim
  rcases hFl : ast.filter with _ | node
  · have hPfil : (print ast).filter = none := by
      rw [show (print ast).filter =
        (match ast.filter with | none => none | some n => printFilter n) from rfl, hFl]
    simp only [reparse, parse, printedToInput, hPfil]
    rw [hfields, hsort, hpag]
    exact ⟨rfl, rfl⟩
  · rw [hFl] at hvfil hfil
    have hvn : validFilterNode node = true := hvfil
    have hgn : goodFilterTree node = true := hfil
    obtain ⟨q, hq⟩ := printFilter_some_of_valid node hvn
    have hPfil : (print ast).filter = some q := by
      rw [show (print ast).filter =
        (match ast.filter with | none => none | some n => printFilter n) from rfl, hFl]
      exact hq
    simp only [reparse, parse, printedToInput, hPfil]
    rw [hfields, hsort, hpag, parseFilter_printFilter node q hvn hgn hq]
    exact ⟨rfl, rfl⟩

/-- Witness for C2 (amended) at a concrete valid, identifier-named AST. -/
theorem C2_roundtrip_amended_witness :
    validQueryAST { fields := some ["title"], pagination := { offset := 20, limit := 10 },
                    sort := [{ field := "createdAt", direction := .desc }],
                    filter := some (.field "status" .eq (.vstr "active")) } = true ∧
    goodFieldList (some ["title"]) = true ∧
    ((reparse { fields := some ["title"], pagination := { offset := 20, limit := 10 },
                sort := [{ field := "createdAt", direction := .desc }],
                filter := some (.field "status" .eq (.vstr "active")) }).ast =
        some { fields := some ["title"],
               pagination := { offset := 20 / 10 * 10, limit := 10 },
               sort := [{ field := "createdAt", direction := .desc }],
               filter := some (.field "status" .eq (.vstr "active")) } ∧
      (reparse { fields := some ["title"], pagination := { offset := 20, limit := 10 },
                 sort := [{ field := "createdAt", direction := .desc }],
                 filter := some (.field "status" .eq (.vstr "active")) }).errors = []) :=
  ⟨rfl, rfl,
    C2_roundtrip_amended
      { fields := some ["title"], pagination := { offset := 20, limit := 10 },
        sort := [{ field := "createdAt", direction := .desc }],
        filter := some (.field "status" .eq (.vstr "active")) } rfl rfl rfl rfl⟩
